import Mathlib

set_option maxHeartbeats 1000000

/-!
Shallow embedding of the plan-tree aggregation and bottleneck-ranking
engine of `examples/sql_query_opt/evaluator.py`: the aggregator walk
(`_walk`), the grouping walk, severity scoring and group selection of
`_summarize_bottlenecks_from_plan`, and the combined score of
`evaluate_internal`.  Machine floats of the source are modelled by
exact rationals (inputs) and real numbers (logarithmic scores).
-/

/-- A JSON scalar value as it appears in an explain-plan node field.
Arrays and nested objects other than the child list under the key
"Plans" do not occur in the fields the engine reads; the child list is
modelled structurally in `PlanNode`. -/
inductive JVal where
  | null : JVal
  | int : Int → JVal
  | num : ℚ → JVal
  | str : String → JVal
  | bool : Bool → JVal
  deriving DecidableEq, Repr

/-- Python truthiness of a scalar JSON value. -/
def pyTruthy : JVal → Bool
  | .null => false
  | .int n => n != 0
  | .num q => q != 0
  | .str s => s != ""
  | .bool b => b

/-- Truncation toward zero, the behaviour of Python int() on a float. -/
def truncQ (q : ℚ) : Int := if 0 ≤ q then ⌊q⌋ else ⌈q⌉

/-- Whitespace stripped by the model's strip: space, tab, newline and
carriage return, the common cases of Python str.strip's default. -/
def isSpaceChar (c : Char) : Bool :=
  c = ' ' || c = '\t' || c = '\n' || c = '\r'

/-- Python str.strip() over the code points of a string. -/
def strTrim (s : String) : String :=
  ⟨((s.data.dropWhile isSpaceChar).reverse.dropWhile isSpaceChar).reverse⟩

/-- The code-point slice s[:n] of Python. -/
def strTake (s : String) (n : Nat) : String := ⟨s.data.take n⟩

/-- Value of a nonempty run of decimal digits, none otherwise. -/
def parseNatDigits (l : List Char) : Option Nat :=
  if l.isEmpty then none
  else if l.all Char.isDigit then
    some (l.foldl (fun n c => n * 10 + (c.toNat - 48)) 0)
  else none

/-- Model of Python int() applied to a string: surrounding whitespace
stripped, an optionally signed run of decimal digits.  Underscore
separators are outside the model. -/
def pyParseInt (s : String) : Option Int :=
  match (strTrim s).data with
  | '-' :: rest => (parseNatDigits rest).map (fun n => -(n : Int))
  | '+' :: rest => (parseNatDigits rest).map (fun n => (n : Int))
  | l => (parseNatDigits l).map (fun n => (n : Int))

/-- Model of Python int(v) on a scalar: ints pass through, floats
truncate toward zero, booleans map to 0 and 1, strings parse as signed
decimal runs, and null (None) raises. -/
def pyToInt : JVal → Except String Int
  | .int n => .ok n
  | .num q => .ok (truncQ q)
  | .bool b => .ok (if b then 1 else 0)
  | .str s =>
      match pyParseInt s with
      | some n => .ok n
      | none => .error ("int: invalid literal " ++ s)
  | .null => .error "int: argument is None"

/-- Model of the source idiom int(v or 0): a falsy value contributes
zero, anything else goes through int(). -/
def pyIntOr0 (v : JVal) : Except String Int :=
  if pyTruthy v then pyToInt v else .ok 0

/-- Digits-and-dot core of Python float() string parsing. -/
def parseDecimalCore (l : List Char) : Option ℚ :=
  match l.splitOn '.' with
  | [a] => (parseNatDigits a).map (fun n => (n : ℚ))
  | [a, b] =>
      if a.isEmpty && b.isEmpty then none
      else
        match (if a.isEmpty then some 0 else parseNatDigits a),
              (if b.isEmpty then some 0 else parseNatDigits b) with
        | some n, some m => some ((n : ℚ) + (m : ℚ) / (10 : ℚ) ^ b.length)
        | _, _ => none
  | _ => none

/-- Model of Python float() applied to a string, restricted to plain
decimal literals (optional sign, digits, optional fractional part,
surrounding whitespace stripped).  Scientific notation and the
inf/nan spellings are outside the model. -/
def pyParseFloat (s : String) : Option ℚ :=
  match (strTrim s).data with
  | '-' :: rest => (parseDecimalCore rest).map (fun q => -q)
  | '+' :: rest => parseDecimalCore rest
  | l => parseDecimalCore l

/-- Model of Python float(v) on a scalar, with rationals standing in
for machine floats. -/
def pyToFloat : JVal → Except String ℚ
  | .int n => .ok (n : ℚ)
  | .num q => .ok q
  | .bool b => .ok (if b then 1 else 0)
  | .str s =>
      match pyParseFloat s with
      | some q => .ok q
      | none => .error ("float: could not convert " ++ s)
  | .null => .error "float: argument is None"

/-- Model of the source idiom float(v or 0.0). -/
def pyFloatOr0 (v : JVal) : Except String ℚ :=
  if pyTruthy v then pyToFloat v else .ok 0

/-- Model of Python str(v) on a scalar; the exact rendering of a
numeric value stands in for Python float repr and only matters for
histogram keys, never for control flow. -/
def pyStr : JVal → String
  | .str s => s
  | .int n => toString n
  | .num q => toString q
  | .bool b => if b then "True" else "False"
  | .null => "None"

/-- One operator node of the explain tree: the node's scalar fields (a
JSON object, modelled as an association list in which the first
binding for a key wins) together with the child list the source reads
from the key "Plans" (a missing or null child entry behaves as the
empty list, exactly as in the source's n.get("Plans", []) or []). -/
inductive PlanNode where
  | mk : List (String × JVal) → List PlanNode → PlanNode

/-- The scalar fields of a node. -/
def PlanNode.fields : PlanNode → List (String × JVal)
  | .mk fs _ => fs

/-- The children of a node. -/
def PlanNode.plans : PlanNode → List PlanNode
  | .mk _ ps => ps

/-- Dictionary lookup n.get(k) on a node's scalar fields: the first
binding for the key wins, as in a JSON object. -/
def getField : List (String × JVal) → String → Option JVal
  | [], _ => none
  | kv :: rest, k => if kv.1 = k then some kv.2 else getField rest k

mutual

/-- Every node of the tree, root first, children in order (the visit
order of the source's recursive walks). -/
def PlanNode.allNodes : PlanNode → List PlanNode
  | .mk fs ps => .mk fs ps :: allNodesL ps

/-- Nodes of a forest, in order. -/
def allNodesL : List PlanNode → List PlanNode
  | [] => []
  | n :: ns => n.allNodes ++ allNodesL ns

end

/-- The accumulator dictionary built by `_walk`: each of the five
counter totals is present exactly when its key has been created
(`none` models an absent key), plus the Node Type histogram. -/
structure WalkAcc where
  shared_read_total : Option Int := none
  shared_hit_total : Option Int := none
  temp_read_total : Option Int := none
  temp_written_total : Option Int := none
  rows_removed_total : Option Int := none
  scan_types : List (JVal × Nat) := []
  deriving DecidableEq, Repr

/-- The accumulator before the walk starts. -/
def WalkAcc.empty : WalkAcc := {}

/-- The five tracked counters of `_walk`'s source/destination table. -/
inductive Counter where
  | sharedRead | sharedHit | tempRead | tempWritten | rowsRemoved
  deriving DecidableEq, Repr

/-- The source key of a counter in a plan node. -/
def Counter.srcKey : Counter → String
  | .sharedRead => "Shared Read Blocks"
  | .sharedHit => "Shared Hit Blocks"
  | .tempRead => "Temp Read Blocks"
  | .tempWritten => "Temp Written Blocks"
  | .rowsRemoved => "Rows Removed by Filter"

/-- Reading a counter's destination entry from the accumulator. -/
def WalkAcc.get : WalkAcc → Counter → Option Int
  | a, .sharedRead => a.shared_read_total
  | a, .sharedHit => a.shared_hit_total
  | a, .tempRead => a.temp_read_total
  | a, .tempWritten => a.temp_written_total
  | a, .rowsRemoved => a.rows_removed_total

/-- Writing a counter's destination entry in the accumulator. -/
def WalkAcc.set : WalkAcc → Counter → Int → WalkAcc
  | a, .sharedRead, v => { a with shared_read_total := some v }
  | a, .sharedHit, v => { a with shared_hit_total := some v }
  | a, .tempRead, v => { a with temp_read_total := some v }
  | a, .tempWritten, v => { a with temp_written_total := some v }
  | a, .rowsRemoved, v => { a with rows_removed_total := some v }

/-- One iteration of the for-loop in `_walk`: when the source key is
present in the node, add int(value or 0) into the destination total,
reading an absent total as 0. -/
def counterStep (c : Counter) (fs : List (String × JVal)) (a : WalkAcc) :
    Except String WalkAcc :=
  match getField fs c.srcKey with
  | none => .ok a
  | some v => do
      let i ← pyIntOr0 v
      .ok (a.set c ((a.get c).getD 0 + i))

/-- Histogram bump st[k] = st.get(k, 0) + 1 on an insertion-ordered
dictionary. -/
def bumpJ : List (JVal × Nat) → JVal → List (JVal × Nat)
  | [], k => [(k, 1)]
  | kv :: rest, k =>
      if kv.1 = k then (kv.1, kv.2 + 1) :: rest else kv :: bumpJ rest k

/-- Per-node work of `_walk`: the five counter updates in source
order, then the Node Type histogram bump when the type is truthy. -/
def nodeStep (fs : List (String × JVal)) (a : WalkAcc) : Except String WalkAcc := do
  let a1 ← counterStep .sharedRead fs a
  let a2 ← counterStep .sharedHit fs a1
  let a3 ← counterStep .tempRead fs a2
  let a4 ← counterStep .tempWritten fs a3
  let a5 ← counterStep .rowsRemoved fs a4
  .ok (match getField fs "Node Type" with
       | some nt =>
           if pyTruthy nt then { a5 with scan_types := bumpJ a5.scan_types nt }
           else a5
       | none => a5)

mutual

/-- Model of `_walk(n, acc)`: per-node accumulation followed by
recursion into the children.  A failed numeric conversion propagates
as the uncaught Python exception would. -/
def walkE : PlanNode → WalkAcc → Except String WalkAcc
  | .mk fs ps, a => do walkListE ps (← nodeStep fs a)

/-- Model of the child loop at the end of `_walk`. -/
def walkListE : List PlanNode → WalkAcc → Except String WalkAcc
  | [], a => .ok a
  | n :: ns, a => do walkListE ns (← walkE n a)

end

/-- The per-group accumulator of the ranker's grouping walk. -/
structure GroupData where
  shared_read : Int := 0
  rows_removed : Int := 0
  temp : Int := 0
  cost : ℚ := 0
  filters : List (String × Nat) := []
  count : Nat := 0
  deriving DecidableEq, Repr

/-- A grouping key: the raw (Node Type, relation-or-alias) dictionary
key pair used by the ranker. -/
abbrev GKey := JVal × JVal

/-- Python a or b on an optional field value: a missing or falsy
value falls through to the default. -/
def pyOrJ (x : Option JVal) (y : JVal) : JVal :=
  match x with
  | some v => if pyTruthy v then v else y
  | none => y

/-- The grouping key of a node, with the placeholder "?" for a
missing or falsy Node Type and relation/alias. -/
def jkey (fs : List (String × JVal)) : GKey :=
  (pyOrJ (getField fs "Node Type") (.str "?"),
   pyOrJ (getField fs "Relation Name") (pyOrJ (getField fs "Alias") (.str "?")))

/-- Newline-to-space flattening of a filter text (the source's
replace of the one-character pattern, expressed per code point). -/
def flattenNewlines (s : String) : String :=
  ⟨s.data.map (fun c => if c = '\n' then ' ' else c)⟩

/-- Newline flattening and 140-character truncation (with an ellipsis
marker appended for longer texts) applied to a filter expression
before it is tallied. -/
def truncFilter (filt : JVal) : String :=
  let s := flattenNewlines (pyStr filt)
  strTake s 140 ++ (if 140 < s.length then "…" else "")

/-- Histogram bump h[k] = h.get(k, 0) + 1 on an insertion-ordered
string-keyed dictionary. -/
def bumpS : List (String × Nat) → String → List (String × Nat)
  | [], k => [(k, 1)]
  | kv :: rest, k =>
      if kv.1 = k then (kv.1, kv.2 + 1) :: rest else kv :: bumpS rest k

/-- The numeric contributions of one node in the grouping walk:
shared reads, rows removed, temp reads plus writes, and cost, each
via the source's get-with-zero-default and or-zero conversion. -/
def groupContribE (fs : List (String × JVal)) :
    Except String (Int × Int × Int × ℚ) := do
  let sr ← pyIntOr0 ((getField fs "Shared Read Blocks").getD (.int 0))
  let rm ← pyIntOr0 ((getField fs "Rows Removed by Filter").getD (.int 0))
  let tr ← pyIntOr0 ((getField fs "Temp Read Blocks").getD (.int 0))
  let tw ← pyIntOr0 ((getField fs "Temp Written Blocks").getD (.int 0))
  let ct ← pyFloatOr0 ((getField fs "Total Cost").getD (.num 0))
  .ok (sr, rm, tr + tw, ct)

/-- setdefault-then-update on the insertion-ordered group dictionary:
an existing key is updated in place, a new key is appended with the
all-zero default before the update. -/
def updateGroups : List (GKey × GroupData) → GKey → (GroupData → GroupData) →
    List (GKey × GroupData)
  | [], k, f => [(k, f {})]
  | kd :: rest, k, f =>
      if kd.1 = k then (kd.1, f kd.2) :: rest else kd :: updateGroups rest k f

/-- Per-node work of the ranker's walk_node: add the node's counters
into its group, bump the occurrence count, and tally the flattened,
truncated filter text when the Filter entry is truthy.  The source
creates the dictionary entry before converting the values; since a
conversion error aborts the whole walk and discards the dictionary,
converting first is observationally the same and is modelled here. -/
def groupNodeStep (fs : List (String × JVal)) (gs : List (GKey × GroupData)) :
    Except String (List (GKey × GroupData)) := do
  let c ← groupContribE fs
  let upd : GroupData → GroupData := fun d =>
    let d1 : GroupData :=
      { d with shared_read := d.shared_read + c.1,
               rows_removed := d.rows_removed + c.2.1,
               temp := d.temp + c.2.2.1,
               cost := d.cost + c.2.2.2,
               count := d.count + 1 }
    match getField fs "Filter" with
    | some filt =>
        if pyTruthy filt then
          { d1 with filters := bumpS d1.filters (truncFilter filt) }
        else d1
    | none => d1
  .ok (updateGroups gs (jkey fs) upd)

mutual

/-- Model of walk_node in `_summarize_bottlenecks_from_plan`: the
node's group update followed by recursion into the children. -/
def groupWalkE : PlanNode → List (GKey × GroupData) →
    Except String (List (GKey × GroupData))
  | .mk fs ps, gs => do groupWalkListE ps (← groupNodeStep fs gs)

/-- Model of walk_node's child loop. -/
def groupWalkListE : List PlanNode → List (GKey × GroupData) →
    Except String (List (GKey × GroupData))
  | [], gs => .ok gs
  | n :: ns, gs => do groupWalkListE ns (← groupWalkE n gs)

end

/-- Severity of a group: the weighted log1p combination computed per
ranked entry in the source, with cost scaled to thousands.  Real
logarithms model the float computation.  Real.log is total (it takes
the junk value 0 on nonpositive arguments), while Python math.log1p
raises ValueError on arguments at or below -1; that raise is modelled
by the sevDomOk guard in `summarizeE`, so this value is only ever used
on groups whose four log1p arguments are in the domain, where the two
computations agree. -/
noncomputable def groupSeverity (d : GroupData) : ℝ :=
  3 * Real.log (1 + (d.shared_read : ℝ)) + 2 * Real.log (1 + (d.temp : ℝ)) +
    1.5 * Real.log (1 + (d.rows_removed : ℝ)) +
    1 * Real.log (1 + (d.cost : ℝ) / 1000)

/-- A ranked entry: grouping key, accumulated data, severity. -/
abbrev RankEntry := GKey × GroupData × ℝ

/-- The severity component of a ranked entry. -/
def RankEntry.sev (e : RankEntry) : ℝ := e.2.2

/-- The severity-descending order used by the ranker's sort. -/
def sevGE (a b : RankEntry) : Prop := RankEntry.sev b ≤ RankEntry.sev a

instance : IsTotal RankEntry sevGE := ⟨fun a b => le_total b.sev a.sev⟩

instance : IsTrans RankEntry sevGE := ⟨fun _ _ _ h1 h2 => le_trans h2 h1⟩

open Classical in
/-- Model of ranked.sort(key=severity, reverse=True): Python's sort
is stable, and insertion sort under the total descending-severity
order — which inserts earlier elements in front of later
equal-severity ones — is exactly the stable descending sort. -/
noncomputable def sortRanked (l : List RankEntry) : List RankEntry :=
  List.insertionSort sevGE l

/-- The ranked list before selection: one severity-carrying entry per
group in dictionary order, stably sorted by descending severity. -/
noncomputable def rankedOf (gs : List (GKey × GroupData)) : List RankEntry :=
  sortRanked (gs.map (fun kd => (kd.1, kd.2, groupSeverity kd.2)))

/-- Sum of the severities of a list of entries. -/
noncomputable def sevSum (l : List RankEntry) : ℝ := (l.map RankEntry.sev).sum

open Classical in
/-- Model of total = sum(severities) or 1.0 — the guard replacing a
zero total severity by 1 before division. -/
noncomputable def sevTotalOr1 (l : List RankEntry) : ℝ :=
  if sevSum l = 0 then 1 else sevSum l

/-- The clamp max(0.0, min(1.0, pareto)) applied to the supplied
fraction. -/
def clamp01 (p : ℚ) : ℚ := max 0 (min 1 p)

open Classical in
/-- The greedy cumulative loop of the pareto branch: append each
entry in ranked order and stop, inclusively, at the first entry whose
cumulative severity share reaches the threshold. -/
noncomputable def paretoLoop (thr total : ℝ) : ℝ → List RankEntry → List RankEntry
  | _, [] => []
  | cum, e :: rest =>
      if thr ≤ (cum + e.sev) / total then [e]
      else e :: paretoLoop thr total (cum + e.sev) rest

/-- The pareto-branch selection at fraction p over a ranked list. -/
noncomputable def paretoKeep (p : ℚ) (ranked : List RankEntry) : List RankEntry :=
  paretoLoop ((clamp01 p : ℚ) : ℝ) (sevTotalOr1 ranked) 0 ranked

/-- Selection policy of `_summarize_bottlenecks_from_plan`: the
pareto branch runs when the supplied fraction is truthy (non-null and
nonzero) and at least one ranked entry exists; otherwise the top-K
slice runs, with the environment default of 5 when no count is
supplied. -/
noncomputable def selectGroups (pareto : Option ℚ) (top : Option Nat)
    (ranked : List RankEntry) : List RankEntry :=
  match pareto with
  | some p =>
      if p ≠ 0 ∧ ranked.isEmpty = false then paretoKeep p ranked
      else ranked.take (top.getD 5)
  | none => ranked.take (top.getD 5)

/-- Whether the four log1p arguments of this group's severity formula
are inside math.log1p's domain (strictly above -1).  Outside it the
source raises ValueError while building the ranked list — e.g. a group
whose summed Shared Read Blocks is a negative integer, or whose cost
is at most -1000. -/
def sevDomOk (d : GroupData) : Bool :=
  decide ((-1 : ℚ) < (d.shared_read : ℚ)) && decide ((-1 : ℚ) < (d.temp : ℚ)) &&
    decide ((-1 : ℚ) < (d.rows_removed : ℚ)) && decide ((-1 : ℚ) < d.cost / 1000)

/-- The group-selection core of `_summarize_bottlenecks_from_plan`:
grouping walk from the root, severity ranking, then selection.  The
ranked list is built by computing every group's severity with
math.log1p before any sorting or slicing happens, so a single
out-of-domain argument aborts the whole call; the guard models that
raise (the Python error text is not modelled, only the failure).  The
presentation fields (rounding, hint strings, top-two filter samples)
are a downstream rendering of the selected entries and are not needed
by any claim about which groups are selected. -/
noncomputable def summarizeE (t : PlanNode) (pareto : Option ℚ) (top : Option Nat) :
    Except String (List RankEntry) := do
  let gs ← groupWalkE t []
  if gs.all (fun kd => sevDomOk kd.2) then
    .ok (selectGroups pareto top (rankedOf gs))
  else .error "math domain error"

/-- The log-normalized sub-score 1 / (1 + log1p x). -/
noncomputable def subScore (x : ℚ) : ℝ := 1 / (1 + Real.log (1 + (x : ℝ)))

/-- Default read weight of EVAL_CS_WEIGHTS_NO_TIME ("0.85,0.15"). -/
def wRead : ℚ := 85 / 100

/-- Default cost weight of EVAL_CS_WEIGHTS_NO_TIME ("0.85,0.15"). -/
def wCost : ℚ := 15 / 100

/-- The combined score of `evaluate_internal` under the default
weights, as a function of the aggregated shared-read total and the
root total cost. -/
noncomputable def combinedScore (rd ct : ℚ) : ℝ :=
  (wRead : ℝ) * subScore rd + (wCost : ℝ) * subScore ct

/-- The aggregated shared-read total read back with a zero default,
as in evaluate_internal's acc.get("shared_read_total", 0.0). -/
def rdOfAcc (a : WalkAcc) : Int := a.shared_read_total.getD 0

/-- Model of the combined-score computation of `evaluate_internal` on
a normalized plan tree: run `_walk`, read the shared-read total with
a zero default, convert the root's Total Cost, and combine the two
log-normalized sub-scores with the default weights.  Python
math.log1p raises on arguments of -1 or below; that domain error is
modelled explicitly. -/
noncomputable def evalScoreE (t : PlanNode) : Except String ℝ := do
  let a ← walkE t WalkAcc.empty
  let rd : ℚ := (rdOfAcc a : ℚ)
  let ct ← pyFloatOr0 ((getField t.fields "Total Cost").getD (.num 0))
  if rd ≤ -1 ∨ ct ≤ -1 then .error "math domain error"
  else .ok (combinedScore rd ct)

/-- Aggregator-side wellformedness of one node: every counter value
present converts under int(value or 0), so `_walk` cannot fail here. -/
def nodeWFA (fs : List (String × JVal)) : Bool :=
  [Counter.sharedRead, .sharedHit, .tempRead, .tempWritten, .rowsRemoved].all
    (fun c => match getField fs c.srcKey with
      | none => true
      | some v => (pyIntOr0 v).isOk)

/-- Aggregator-side wellformedness of a whole tree. -/
def aggWF (t : PlanNode) : Bool := t.allNodes.all (fun n => nodeWFA n.fields)

/-- Ranker-side wellformedness of one node: its four integer counters
and its float Total Cost convert. -/
def nodeWFR (fs : List (String × JVal)) : Bool := (groupContribE fs).isOk

/-- Ranker-side wellformedness of a whole tree. -/
def rankWF (t : PlanNode) : Bool := t.allNodes.all (fun n => nodeWFR n.fields)

/-- The contribution of one node to a counter total: the converted
value when the key is present, zero when it is absent.  The inner
zero default is exercised only outside the wellformedness hypotheses
under which this definition is compared with the walk. -/
def contribD (c : Counter) (fs : List (String × JVal)) : Int :=
  match getField fs c.srcKey with
  | none => 0
  | some v => ((pyIntOr0 v).toOption).getD 0

/-- The sum of a counter over every node of the tree. -/
def treeSum (c : Counter) (t : PlanNode) : Int :=
  (t.allNodes.map (fun n => contribD c n.fields)).sum

/-- Whether a counter's source key is present in some node. -/
def presentT (c : Counter) (t : PlanNode) : Bool :=
  t.allNodes.any (fun n => (getField n.fields c.srcKey).isSome)

/-- A counter total read back from the aggregator with a zero
default, the way `evaluate_internal` consumes the accumulator. -/
def walkTotal (c : Counter) (t : PlanNode) : Int :=
  match walkE t WalkAcc.empty with
  | .ok a => (a.get c).getD 0
  | .error _ => 0

/-- The multiset of node field-records of a tree: two trees with the
same multiset contain the same nodes, visited in some order. -/
def fieldsMultiset (t : PlanNode) : Multiset (List (String × JVal)) :=
  (t.allNodes.map PlanNode.fields : List (List (String × JVal)))

/-- Association-list lookup in the group dictionary. -/
def lookupG (k : GKey) : List (GKey × GroupData) → Option GroupData
  | [] => none
  | kd :: rest => if kd.1 = k then some kd.2 else lookupG k rest

/-- The nodes of the tree whose grouping key is k, in visit order. -/
def nodesWithKey (k : GKey) (t : PlanNode) : List PlanNode :=
  t.allNodes.filter (fun n => jkey n.fields = k)

/-- A node's numeric group contribution with the same innocuous zero
default as contribD, exercised only outside wellformedness. -/
def groupContribD (fs : List (String × JVal)) : Int × Int × Int × ℚ :=
  ((groupContribE fs).toOption).getD (0, 0, 0, 0)

/-- Componentwise sums of the numeric contributions of all nodes with
grouping key k. -/
def keySums (k : GKey) (t : PlanNode) : Int × Int × Int × ℚ :=
  ((nodesWithKey k t).map (fun n => groupContribD n.fields)).foldr
    (fun x y => (x.1 + y.1, x.2.1 + y.2.1, x.2.2.1 + y.2.2.1, x.2.2.2 + y.2.2.2))
    (0, 0, 0, 0)

/-- The number of nodes with grouping key k. -/
def keyCount (k : GKey) (t : PlanNode) : Nat := (nodesWithKey k t).length

/-- Whether some node of the tree has grouping key k. -/
def presentK (k : GKey) (t : PlanNode) : Bool :=
  t.allNodes.any (fun n => jkey n.fields = k)

/-- Pure form of one counter update of `_walk`, used to state what
the effectful step computes when no conversion fails. -/
def counterStepD (c : Counter) (fs : List (String × JVal)) (a : WalkAcc) : WalkAcc :=
  match getField fs c.srcKey with
  | none => a
  | some _ => a.set c ((a.get c).getD 0 + contribD c fs)

/-- The Node Type histogram update at the end of `_walk`'s per-node
work. -/
def scanUpd (fs : List (String × JVal)) (a : WalkAcc) : WalkAcc :=
  match getField fs "Node Type" with
  | some nt =>
      if pyTruthy nt then { a with scan_types := bumpJ a.scan_types nt } else a
  | none => a

/-- Pure form of `_walk`'s per-node work. -/
def nodeStepD (fs : List (String × JVal)) (a : WalkAcc) : WalkAcc :=
  scanUpd fs
    (counterStepD .rowsRemoved fs
      (counterStepD .tempWritten fs
        (counterStepD .tempRead fs
          (counterStepD .sharedHit fs
            (counterStepD .sharedRead fs a)))))

/-- The aggregator walk as a linear fold over the visit order. -/
def foldWalk (ns : List PlanNode) (a : WalkAcc) : WalkAcc :=
  ns.foldl (fun a n => nodeStepD n.fields a) a

/-- Pure form of the ranker's per-node group update, used to state
what the effectful step computes when no conversion fails. -/
def addGroupNode (fs : List (String × JVal)) (d : GroupData) : GroupData :=
  let c := groupContribD fs
  let d1 : GroupData :=
    { d with shared_read := d.shared_read + c.1,
             rows_removed := d.rows_removed + c.2.1,
             temp := d.temp + c.2.2.1,
             cost := d.cost + c.2.2.2,
             count := d.count + 1 }
  match getField fs "Filter" with
  | some filt =>
      if pyTruthy filt then
        { d1 with filters := bumpS d1.filters (truncFilter filt) }
      else d1
  | none => d1

/-- The grouping walk as a linear fold over the visit order. -/
def foldGroups (ns : List PlanNode) (gs : List (GKey × GroupData)) :
    List (GKey × GroupData) :=
  ns.foldl (fun gs n => updateGroups gs (jkey n.fields) (addGroupNode n.fields)) gs

/-- The fields read numerically by either walk. -/
def numericKeys : List String :=
  ["Shared Read Blocks", "Shared Hit Blocks", "Temp Read Blocks",
   "Temp Written Blocks", "Rows Removed by Filter", "Total Cost"]

/-- Every numeric field of every node is either absent or falsy
(null, zero, empty string, false), the benign shapes the or-zero
idiom maps to zero. -/
def falsyCounters (t : PlanNode) : Bool :=
  t.allNodes.all (fun n =>
    numericKeys.all (fun k =>
      match getField n.fields k with
      | none => true
      | some v => !pyTruthy v))

/-- First child of the worked grouping example: a sequential scan of
the relation "orders" reading 50 shared blocks at cost 1000. -/
def exSeq1 : PlanNode :=
  .mk [("Node Type", .str "Seq Scan"), ("Relation Name", .str "orders"),
       ("Shared Read Blocks", .int 50), ("Total Cost", .num 1000)] []

/-- Second child of the worked grouping example: a sequential scan of
the relation "orders" reading 30 shared blocks at cost 2000. -/
def exSeq2 : PlanNode :=
  .mk [("Node Type", .str "Seq Scan"), ("Relation Name", .str "orders"),
       ("Shared Read Blocks", .int 30), ("Total Cost", .num 2000)] []

/-- The worked grouping example: a root with the two sibling
sequential scans of "orders" as children. -/
def exTree : PlanNode :=
  .mk [("Node Type", .str "Gather"), ("Total Cost", .num 3500)] [exSeq1, exSeq2]

/-- The grouping key of the worked example's scans. -/
def exKey : GKey := (.str "Seq Scan", .str "orders")

/-- A node carrying a truthy non-numeric string in a counter field. -/
def tBad : PlanNode := .mk [("Shared Read Blocks", .str "abc")] []

/-- A single-node plan with no measured resource usage at all: its
only group has severity exactly zero. -/
def tZero : PlanNode := .mk [("Node Type", .str "Result")] []

/-- A single-node plan whose root Total Cost is the negative float
-0.64, an input the score formula accepts without a domain error. -/
def tNeg : PlanNode := .mk [("Total Cost", .num (-16/25))] []

/-- A single-node plan reading 100 shared blocks: its only group has
strictly positive severity. -/
def tOne : PlanNode :=
  .mk [("Node Type", .str "Seq Scan"), ("Relation Name", .str "orders"),
       ("Shared Read Blocks", .int 100)] []

/-- The grouping key of tOne's single node. -/
def kOne : GKey := (.str "Seq Scan", .str "orders")

/-- The group data the grouping walk accumulates on tOne. -/
def dOne : GroupData :=
  { shared_read := 100, rows_removed := 0, temp := 0, cost := 0,
    filters := [], count := 1 }

/-- The group dictionary the grouping walk produces on tOne. -/
def gsOne : List (GKey × GroupData) := [(kOne, dOne)]

/-- The accumulator `_walk` produces on exTree. -/
def aEx : WalkAcc :=
  { shared_read_total := some 80,
    scan_types := [(.str "Gather", 1), (.str "Seq Scan", 2)] }

/-- A two-node plan whose nodes land in one group: used to exhibit
trees with several nodes but mixed counters. -/
def tTwo : PlanNode :=
  .mk [("Node Type", .str "Sort"), ("Temp Written Blocks", .int 7)]
    [.mk [("Node Type", .str "Seq Scan"), ("Relation Name", .str "t"),
          ("Rows Removed by Filter", .int 3),
          ("Filter", .str "(x > 1)")] []]

/-- tTwo with its single child list order trivially permuted plus a
sibling swap target: a reassociated copy of exTree used for the
order-independence witness. -/
def exTreeSwapped : PlanNode :=
  .mk [("Node Type", .str "Gather"), ("Total Cost", .num 3500)] [exSeq2, exSeq1]

/-- A single node whose Shared Read Blocks is the negative integer
-5: the walks accept it, but the severity formula's log1p raises. -/
def tNegSR : PlanNode :=
  .mk [("Node Type", .str "Seq Scan"), ("Shared Read Blocks", .int (-5))] []

/-- A single node with every counter field present but null. -/
def tNull : PlanNode :=
  .mk [("Node Type", .str "Seq Scan"),
       ("Shared Read Blocks", .null), ("Shared Hit Blocks", .null),
       ("Temp Read Blocks", .null), ("Temp Written Blocks", .null),
       ("Rows Removed by Filter", .null), ("Total Cost", .null)] []

/-- The group dictionary the grouping walk produces on exTree. -/
def gsEx : List (GKey × GroupData) :=
  [((.str "Gather", .str "?"),
    { shared_read := 0, rows_removed := 0, temp := 0, cost := 3500,
      filters := [], count := 1 }),
   ((.str "Seq Scan", .str "orders"),
    { shared_read := 80, rows_removed := 0, temp := 0, cost := 3000,
      filters := [], count := 2 })]

/-- The group dictionary the grouping walk produces on tTwo. -/
def gsTwo : List (GKey × GroupData) :=
  [((.str "Sort", .str "?"),
    { shared_read := 0, rows_removed := 0, temp := 7, cost := 0,
      filters := [], count := 1 }),
   ((.str "Seq Scan", .str "t"),
    { shared_read := 0, rows_removed := 3, temp := 0, cost := 0,
      filters := [("(x > 1)", 1)], count := 1 })]

/-- The group dictionary the grouping walk produces on tZero: one
group, every counter zero. -/
def gsZero : List (GKey × GroupData) :=
  [((.str "Result", .str "?"),
    { shared_read := 0, rows_removed := 0, temp := 0, cost := 0,
      filters := [], count := 1 })]

/-- Structural induction for the nested tree type: to prove a
property of every tree it is enough to prove it of a node given it
for all children. -/
theorem PlanNode.ind (P : PlanNode → Prop)
    (mk : ∀ fs ps, (∀ n, n ∈ ps → P n) → P (PlanNode.mk fs ps)) :
    ∀ t, P t := by
  have key : ∀ k : Nat, ∀ t : PlanNode, sizeOf t ≤ k → P t := by
    intro k
    induction k with
    | zero =>
        intro t ht
        cases t with
        | mk fs ps => simp at ht
    | succ k ih =>
        intro t ht
        cases t with
        | mk fs ps =>
            apply mk
            intro n hn
            apply ih
            have h1 := List.sizeOf_lt_of_mem hn
            have h2 : sizeOf (PlanNode.mk fs ps) = 1 + sizeOf fs + sizeOf ps := by
              simp [PlanNode.mk.sizeOf_spec]
            omega
  intro t
  exact key (sizeOf t) t le_rfl

@[simp] theorem allNodes_mk (fs : List (String × JVal)) (ps : List PlanNode) :
    (PlanNode.mk fs ps).allNodes = PlanNode.mk fs ps :: allNodesL ps := by
  rw [PlanNode.allNodes]

@[simp] theorem allNodesL_nil : allNodesL [] = [] := by rw [allNodesL]

@[simp] theorem allNodesL_cons (n : PlanNode) (ns : List PlanNode) :
    allNodesL (n :: ns) = n.allNodes ++ allNodesL ns := by rw [allNodesL]

@[simp] theorem fields_mk (fs : List (String × JVal)) (ps : List PlanNode) :
    (PlanNode.mk fs ps).fields = fs := rfl

theorem get_set_same (a : WalkAcc) (c : Counter) (v : Int) :
    (a.set c v).get c = some v := by
  cases c <;> rfl

theorem get_set_other (a : WalkAcc) {c c' : Counter} (h : c ≠ c') (v : Int) :
    (a.set c v).get c' = a.get c' := by
  cases c <;> cases c' <;> simp_all [WalkAcc.get, WalkAcc.set]

theorem get_empty (c : Counter) : WalkAcc.empty.get c = none := by
  cases c <;> rfl

theorem get_scanUpd (fs : List (String × JVal)) (a : WalkAcc) (c : Counter) :
    (scanUpd fs a).get c = a.get c := by
  unfold scanUpd
  rcases getField fs "Node Type" with _ | nt
  · rfl
  · by_cases hp : pyTruthy nt <;> cases c <;> simp [hp, WalkAcc.get]

theorem contribD_of_not_present {c : Counter} {fs : List (String × JVal)}
    (h : getField fs c.srcKey = none) : contribD c fs = 0 := by
  simp [contribD, h]

theorem exceptBind_ok {α β ε : Type} (a : α) (f : α → Except ε β) :
    (Except.ok a : Except ε α) >>= f = f a := rfl

theorem counterStep_eq_ok (c : Counter) (fs : List (String × JVal)) (a : WalkAcc)
    (h : (match getField fs c.srcKey with
          | none => true
          | some v => (pyIntOr0 v).isOk) = true) :
    counterStep c fs a = .ok (counterStepD c fs a) := by
  unfold counterStep counterStepD contribD
  rcases hg : getField fs c.srcKey with _ | v
  · rfl
  · rw [hg] at h
    dsimp only at h ⊢
    rcases hv : pyIntOr0 v with e | i
    · rw [Except.isOk, hv] at h
      exact Bool.noConfusion h
    · simp [exceptBind_ok, Except.toOption]

theorem counterStep_of_wfa {fs : List (String × JVal)} (h : nodeWFA fs = true)
    (c : Counter) (a : WalkAcc) :
    counterStep c fs a = .ok (counterStepD c fs a) := by
  apply counterStep_eq_ok
  simp only [nodeWFA, List.all_cons, List.all_nil, Bool.and_eq_true,
    Bool.and_true] at h
  obtain ⟨h1, h2, h3, h4, h5⟩ := h
  cases c
  · exact h1
  · exact h2
  · exact h3
  · exact h4
  · exact h5

theorem nodeStep_of_wfa {fs : List (String × JVal)} (h : nodeWFA fs = true)
    (a : WalkAcc) : nodeStep fs a = .ok (nodeStepD fs a) := by
  simp only [nodeStep, counterStep_of_wfa h, exceptBind_ok]
  rfl

theorem foldWalk_append (l1 l2 : List PlanNode) (a : WalkAcc) :
    foldWalk (l1 ++ l2) a = foldWalk l2 (foldWalk l1 a) := by
  simp [foldWalk, List.foldl_append]

theorem aggWF_mk {fs : List (String × JVal)} {ps : List PlanNode}
    (h : aggWF (.mk fs ps) = true) :
    nodeWFA fs = true ∧ (allNodesL ps).all (fun n => nodeWFA n.fields) = true := by
  simp only [aggWF, allNodes_mk, List.all_cons, Bool.and_eq_true, fields_mk] at h
  exact h

theorem walkListE_eq_fold (ps : List PlanNode)
    (ih : ∀ n ∈ ps, aggWF n = true → ∀ a, walkE n a = .ok (foldWalk n.allNodes a))
    (h : (allNodesL ps).all (fun n => nodeWFA n.fields) = true) :
    ∀ a, walkListE ps a = .ok (foldWalk (allNodesL ps) a) := by
  induction ps with
  | nil => intro a; rw [walkListE]; rfl
  | cons n ns ihl =>
      intro a
      rw [allNodesL_cons] at h
      rw [List.all_append, Bool.and_eq_true] at h
      have hn : aggWF n = true := h.1
      rw [walkListE]
      rw [ih n (List.mem_cons_self n ns) hn a]
      rw [exceptBind_ok]
      rw [ihl (fun m hm => ih m (List.mem_cons_of_mem n hm)) h.2]
      rw [allNodesL_cons, foldWalk_append]

theorem walkE_eq_fold (t : PlanNode) :
    aggWF t = true → ∀ a, walkE t a = .ok (foldWalk t.allNodes a) := by
  induction t using PlanNode.ind with
  | mk fs ps ih =>
      intro h a
      obtain ⟨h1, h2⟩ := aggWF_mk h
      rw [walkE]
      rw [nodeStep_of_wfa h1]
      rw [exceptBind_ok]
      rw [walkListE_eq_fold ps ih h2]
      rw [allNodes_mk]
      rfl

theorem get_counterStepD_same (c : Counter) (fs : List (String × JVal)) (a : WalkAcc) :
    (counterStepD c fs a).get c =
      if (getField fs c.srcKey).isSome then some ((a.get c).getD 0 + contribD c fs)
      else a.get c := by
  unfold counterStepD
  rcases getField fs c.srcKey with _ | v
  · simp
  · simp [get_set_same]

theorem get_counterStepD_other {c c' : Counter} (h : c ≠ c')
    (fs : List (String × JVal)) (a : WalkAcc) :
    (counterStepD c fs a).get c' = a.get c' := by
  unfold counterStepD
  rcases getField fs c.srcKey with _ | v
  · rfl
  · exact get_set_other a h _

theorem get_nodeStepD (fs : List (String × JVal)) (a : WalkAcc) (c : Counter) :
    (nodeStepD fs a).get c =
      if (getField fs c.srcKey).isSome then some ((a.get c).getD 0 + contribD c fs)
      else a.get c := by
  unfold nodeStepD
  rw [get_scanUpd]
  cases c <;>
    simp only [get_counterStepD_same,
      get_counterStepD_other (by simp : Counter.sharedRead ≠ Counter.sharedHit),
      get_counterStepD_other (by simp : Counter.sharedRead ≠ Counter.tempRead),
      get_counterStepD_other (by simp : Counter.sharedRead ≠ Counter.tempWritten),
      get_counterStepD_other (by simp : Counter.sharedRead ≠ Counter.rowsRemoved),
      get_counterStepD_other (by simp : Counter.sharedHit ≠ Counter.sharedRead),
      get_counterStepD_other (by simp : Counter.sharedHit ≠ Counter.tempRead),
      get_counterStepD_other (by simp : Counter.sharedHit ≠ Counter.tempWritten),
      get_counterStepD_other (by simp : Counter.sharedHit ≠ Counter.rowsRemoved),
      get_counterStepD_other (by simp : Counter.tempRead ≠ Counter.sharedRead),
      get_counterStepD_other (by simp : Counter.tempRead ≠ Counter.sharedHit),
      get_counterStepD_other (by simp : Counter.tempRead ≠ Counter.tempWritten),
      get_counterStepD_other (by simp : Counter.tempRead ≠ Counter.rowsRemoved),
      get_counterStepD_other (by simp : Counter.tempWritten ≠ Counter.sharedRead),
      get_counterStepD_other (by simp : Counter.tempWritten ≠ Counter.sharedHit),
      get_counterStepD_other (by simp : Counter.tempWritten ≠ Counter.tempRead),
      get_counterStepD_other (by simp : Counter.tempWritten ≠ Counter.rowsRemoved),
      get_counterStepD_other (by simp : Counter.rowsRemoved ≠ Counter.sharedRead),
      get_counterStepD_other (by simp : Counter.rowsRemoved ≠ Counter.sharedHit),
      get_counterStepD_other (by simp : Counter.rowsRemoved ≠ Counter.tempRead),
      get_counterStepD_other (by simp : Counter.rowsRemoved ≠ Counter.tempWritten)]

theorem get_foldWalk (c : Counter) (ns : List PlanNode) :
    ∀ a : WalkAcc,
    (foldWalk ns a).get c =
      if (ns.any fun n => (getField n.fields c.srcKey).isSome) || (a.get c).isSome
      then some ((a.get c).getD 0 + (ns.map fun n => contribD c n.fields).sum)
      else a.get c := by
  induction ns with
  | nil =>
      intro a
      rcases ha : a.get c with _ | v <;> simp [foldWalk, ha]
  | cons n ns ihl =>
      intro a
      have hstep : foldWalk (n :: ns) a = foldWalk ns (nodeStepD n.fields a) := rfl
      rw [hstep, ihl, get_nodeStepD]
      rcases hgf : getField n.fields c.srcKey with _ | v
      · rcases ha : a.get c with _ | w <;>
          simp [hgf, ha, contribD_of_not_present hgf, add_assoc]
      · rcases ha : a.get c with _ | w <;>
          simp [hgf, ha, add_assoc]

theorem treeSum_eq_zero_of_not_present {c : Counter} {t : PlanNode}
    (h : (t.allNodes.any fun n => (getField n.fields c.srcKey).isSome) = false) :
    treeSum c t = 0 := by
  unfold treeSum
  apply List.sum_eq_zero
  intro x hx
  rw [List.mem_map] at hx
  obtain ⟨n, hn, rfl⟩ := hx
  have := List.any_eq_false.mp h n hn
  apply contribD_of_not_present
  rcases hg : getField n.fields c.srcKey with _ | v
  · rfl
  · rw [hg] at this; simp at this

theorem walkTotal_eq_treeSum {t : PlanNode} (h : aggWF t = true) (c : Counter) :
    walkTotal c t = treeSum c t := by
  unfold walkTotal
  rw [walkE_eq_fold t h WalkAcc.empty]
  dsimp only
  rw [get_foldWalk, get_empty]
  simp only [Option.isSome_none, Bool.or_false, Option.getD_none, zero_add]
  rcases hp : (t.allNodes.any fun n => (getField n.fields c.srcKey).isSome) with _ | _
  · rw [treeSum_eq_zero_of_not_present hp]
    simp
  · simp [treeSum]

theorem walk_get_none_iff {t : PlanNode} (h : aggWF t = true) {a : WalkAcc}
    (hw : walkE t WalkAcc.empty = .ok a) (c : Counter) :
    (a.get c = none ↔ presentT c t = false) := by
  rw [walkE_eq_fold t h WalkAcc.empty] at hw
  injection hw with hw
  rw [← hw, get_foldWalk, get_empty]
  unfold presentT
  rcases hp : (t.allNodes.any fun n => (getField n.fields c.srcKey).isSome) with _ | _ <;>
    simp

theorem treeSum_multiset (c : Counter) (t : PlanNode) :
    treeSum c t = ((fieldsMultiset t).map (fun fs => contribD c fs)).sum := by
  unfold treeSum fieldsMultiset
  rw [Multiset.map_coe, Multiset.sum_coe, List.map_map]
  rfl

theorem aggWF_iff_multiset (t : PlanNode) :
    aggWF t = true ↔ ∀ fs ∈ fieldsMultiset t, nodeWFA fs = true := by
  unfold aggWF fieldsMultiset
  rw [List.all_eq_true]
  constructor
  · intro h fs hfs
    rw [Multiset.mem_coe, List.mem_map] at hfs
    obtain ⟨n, hn, rfl⟩ := hfs
    exact h n hn
  · intro h n hn
    exact h n.fields (by rw [Multiset.mem_coe, List.mem_map]; exact ⟨n, hn, rfl⟩)


theorem lookupG_updateGroups_same (gs : List (GKey × GroupData)) (k : GKey)
    (f : GroupData → GroupData) :
    lookupG k (updateGroups gs k f) = some (f ((lookupG k gs).getD {})) := by
  induction gs with
  | nil => simp [updateGroups, lookupG]
  | cons kd rest ih =>
      by_cases h : kd.1 = k
      · simp [updateGroups, lookupG, h]
      · simp [updateGroups, lookupG, h, ih]

theorem lookupG_updateGroups_other {k k' : GKey} (h : k' ≠ k)
    (gs : List (GKey × GroupData)) (f : GroupData → GroupData) :
    lookupG k' (updateGroups gs k f) = lookupG k' gs := by
  have hkk' : ¬ k = k' := fun hc => h hc.symm
  induction gs with
  | nil => simp [updateGroups, lookupG, hkk']
  | cons kd rest ih =>
      by_cases hk : kd.1 = k
      · have hk2 : ¬ kd.1 = k' := fun hc => h (hc.symm.trans hk)
        simp [updateGroups, lookupG, hk, hk2, hkk', h]
      · by_cases hk' : kd.1 = k' <;>
          simp [updateGroups, lookupG, hk, hk', ih, hkk', h]

theorem rankWF_mk {fs : List (String × JVal)} {ps : List PlanNode}
    (h : rankWF (.mk fs ps) = true) :
    nodeWFR fs = true ∧ (allNodesL ps).all (fun n => nodeWFR n.fields) = true := by
  simp only [rankWF, allNodes_mk, List.all_cons, Bool.and_eq_true, fields_mk] at h
  exact h

theorem groupNodeStep_of_wfr {fs : List (String × JVal)} (h : nodeWFR fs = true)
    (gs : List (GKey × GroupData)) :
    groupNodeStep fs gs = .ok (updateGroups gs (jkey fs) (addGroupNode fs)) := by
  unfold nodeWFR at h
  rcases hc : groupContribE fs with e | c
  · rw [Except.isOk, hc] at h
    exact Bool.noConfusion h
  · unfold groupNodeStep addGroupNode
    rw [hc, exceptBind_ok]
    have hD : groupContribD fs = c := by
      simp [groupContribD, hc, Except.toOption]
    rw [hD]

theorem foldGroups_append (l1 l2 : List PlanNode) (gs : List (GKey × GroupData)) :
    foldGroups (l1 ++ l2) gs = foldGroups l2 (foldGroups l1 gs) := by
  simp [foldGroups, List.foldl_append]

theorem groupWalkListE_eq_fold (ps : List PlanNode)
    (ih : ∀ n ∈ ps, rankWF n = true →
      ∀ gs, groupWalkE n gs = .ok (foldGroups n.allNodes gs))
    (h : (allNodesL ps).all (fun n => nodeWFR n.fields) = true) :
    ∀ gs, groupWalkListE ps gs = .ok (foldGroups (allNodesL ps) gs) := by
  induction ps with
  | nil => intro gs; rw [groupWalkListE]; rfl
  | cons n ns ihl =>
      intro gs
      rw [allNodesL_cons] at h
      rw [List.all_append, Bool.and_eq_true] at h
      rw [groupWalkListE]
      rw [ih n (List.mem_cons_self n ns) h.1 gs]
      rw [exceptBind_ok]
      rw [ihl (fun m hm => ih m (List.mem_cons_of_mem n hm)) h.2]
      rw [allNodesL_cons, foldGroups_append]

theorem groupWalkE_eq_fold (t : PlanNode) :
    rankWF t = true → ∀ gs, groupWalkE t gs = .ok (foldGroups t.allNodes gs) := by
  induction t using PlanNode.ind with
  | mk fs ps ih =>
      intro h gs
      obtain ⟨h1, h2⟩ := rankWF_mk h
      rw [groupWalkE]
      rw [groupNodeStep_of_wfr h1]
      rw [exceptBind_ok]
      rw [groupWalkListE_eq_fold ps ih h2]
      rw [allNodes_mk]
      rfl

theorem lookupG_foldGroups (k : GKey) (ns : List PlanNode) :
    ∀ gs : List (GKey × GroupData),
    lookupG k (foldGroups ns gs) =
      if (ns.any fun n => jkey n.fields = k) || (lookupG k gs).isSome
      then some
        (((ns.filter fun n => jkey n.fields = k).map PlanNode.fields).foldl
          (fun d fs => addGroupNode fs d) ((lookupG k gs).getD {}))
      else lookupG k gs := by
  induction ns with
  | nil =>
      intro gs
      rcases h : lookupG k gs with _ | d <;> simp [foldGroups, h]
  | cons n ns ih =>
      intro gs
      have hstep : foldGroups (n :: ns) gs
          = foldGroups ns (updateGroups gs (jkey n.fields) (addGroupNode n.fields)) := rfl
      rw [hstep, ih]
      by_cases hk : jkey n.fields = k
      · rw [hk]
        rw [lookupG_updateGroups_same]
        simp [hk]
      · have hk2 : k ≠ jkey n.fields := fun hc => hk hc.symm
        rw [lookupG_updateGroups_other hk2]
        simp [hk]

theorem addGroupNode_proj (fs : List (String × JVal)) (d : GroupData) :
    (addGroupNode fs d).shared_read = d.shared_read + (groupContribD fs).1 ∧
    (addGroupNode fs d).rows_removed = d.rows_removed + (groupContribD fs).2.1 ∧
    (addGroupNode fs d).temp = d.temp + (groupContribD fs).2.2.1 ∧
    (addGroupNode fs d).cost = d.cost + (groupContribD fs).2.2.2 ∧
    (addGroupNode fs d).count = d.count + 1 := by
  unfold addGroupNode
  rcases getField fs "Filter" with _ | filt
  · simp
  · by_cases ht : pyTruthy filt <;> simp [ht]

theorem foldl_addGroupNode_proj (l : List (List (String × JVal))) :
    ∀ d : GroupData,
    (l.foldl (fun d fs => addGroupNode fs d) d).shared_read
        = d.shared_read + (l.map (fun fs => (groupContribD fs).1)).sum ∧
    (l.foldl (fun d fs => addGroupNode fs d) d).rows_removed
        = d.rows_removed + (l.map (fun fs => (groupContribD fs).2.1)).sum ∧
    (l.foldl (fun d fs => addGroupNode fs d) d).temp
        = d.temp + (l.map (fun fs => (groupContribD fs).2.2.1)).sum ∧
    (l.foldl (fun d fs => addGroupNode fs d) d).cost
        = d.cost + (l.map (fun fs => (groupContribD fs).2.2.2)).sum ∧
    (l.foldl (fun d fs => addGroupNode fs d) d).count = d.count + l.length := by
  induction l with
  | nil => intro d; simp
  | cons fs l ih =>
      intro d
      obtain ⟨h1, h2, h3, h4, h5⟩ := addGroupNode_proj fs d
      obtain ⟨g1, g2, g3, g4, g5⟩ := ih (addGroupNode fs d)
      refine ⟨?_, ?_, ?_, ?_, ?_⟩ <;>
        simp [List.foldl_cons, g1, g2, g3, g4, g5, h1, h2, h3, h4, h5, add_assoc]
      omega

theorem foldrTuple (l : List (Int × Int × Int × ℚ)) :
    l.foldr
      (fun x y => (x.1 + y.1, x.2.1 + y.2.1, x.2.2.1 + y.2.2.1, x.2.2.2 + y.2.2.2))
      (0, 0, 0, 0)
      = ((l.map fun x => x.1).sum, (l.map fun x => x.2.1).sum,
         (l.map fun x => x.2.2.1).sum, (l.map fun x => x.2.2.2).sum) := by
  induction l with
  | nil => simp
  | cons x l ih => simp only [List.foldr_cons, ih, List.map_cons, List.sum_cons]

theorem group_lookup_sums {t : PlanNode} (h : rankWF t = true)
    {gs : List (GKey × GroupData)} (hw : groupWalkE t [] = .ok gs)
    (k : GKey) (d : GroupData) (hd : lookupG k gs = some d) :
    d.shared_read = (keySums k t).1 ∧ d.rows_removed = (keySums k t).2.1 ∧
    d.temp = (keySums k t).2.2.1 ∧ d.cost = (keySums k t).2.2.2 ∧
    d.count = keyCount k t := by
  rw [groupWalkE_eq_fold t h []] at hw
  injection hw with hw
  rw [← hw] at hd
  rw [lookupG_foldGroups] at hd
  have hnil : lookupG k ([] : List (GKey × GroupData)) = none := rfl
  rw [hnil] at hd
  simp only [Option.isSome_none, Bool.or_false, Option.getD_none] at hd
  rcases hp : (t.allNodes.any fun n => jkey n.fields = k) with _ | _
  · rw [hp] at hd
    simp at hd
  · rw [hp] at hd
    simp only [if_true, Option.some.injEq] at hd
    obtain ⟨p1, p2, p3, p4, p5⟩ :=
      foldl_addGroupNode_proj
        ((t.allNodes.filter fun n => jkey n.fields = k).map PlanNode.fields)
        ({} : GroupData)
    rw [← hd]
    unfold keySums keyCount nodesWithKey
    rw [foldrTuple]
    simp only [List.map_map, List.length_map] at p1 p2 p3 p4 p5 ⊢
    refine ⟨?_, ?_, ?_, ?_, ?_⟩
    · rw [p1, zero_add]; rfl
    · rw [p2, zero_add]; rfl
    · rw [p3, zero_add]; rfl
    · rw [p4, zero_add]; rfl
    · rw [p5]; simp

theorem mem_keys_iff_lookup (k : GKey) (gs : List (GKey × GroupData)) :
    k ∈ gs.map Prod.fst ↔ (lookupG k gs).isSome := by
  induction gs with
  | nil => simp [lookupG]
  | cons kd rest ih =>
      by_cases h : kd.1 = k
      · simp [lookupG, h]
      · have h2 : ¬ k = kd.1 := fun hc => h hc.symm
        simp [lookupG, h, h2, ih]

theorem keys_updateGroups (gs : List (GKey × GroupData)) (k : GKey)
    (f : GroupData → GroupData) :
    (updateGroups gs k f).map Prod.fst =
      if (lookupG k gs).isSome then gs.map Prod.fst else gs.map Prod.fst ++ [k] := by
  induction gs with
  | nil => simp [updateGroups, lookupG]
  | cons kd rest ih =>
      by_cases h : kd.1 = k
      · simp [updateGroups, lookupG, h]
      · simp only [updateGroups, lookupG, h, if_false, List.map_cons, ih]
        split <;> simp

theorem nodupKeys_updateGroups {gs : List (GKey × GroupData)}
    (h : (gs.map Prod.fst).Nodup) (k : GKey) (f : GroupData → GroupData) :
    ((updateGroups gs k f).map Prod.fst).Nodup := by
  rw [keys_updateGroups]
  rcases hl : (lookupG k gs).isSome with _ | _
  · simp only [Bool.false_eq_true, if_false]
    rw [List.nodup_append]
    refine ⟨h, List.nodup_singleton k, ?_⟩
    intro x hx hk
    rw [List.mem_singleton] at hk
    rw [hk] at hx
    rw [mem_keys_iff_lookup, hl] at hx
    exact Bool.noConfusion hx
  · simpa using h

theorem nodupKeys_foldGroups (ns : List PlanNode) :
    ∀ gs : List (GKey × GroupData), (gs.map Prod.fst).Nodup →
      ((foldGroups ns gs).map Prod.fst).Nodup := by
  induction ns with
  | nil => intro gs h; exact h
  | cons n ns ih =>
      intro gs h
      exact ih _ (nodupKeys_updateGroups h _ _)

theorem groupWalk_ne_nil {t : PlanNode} (h : rankWF t = true)
    {gs : List (GKey × GroupData)} (hw : groupWalkE t [] = .ok gs) : gs ≠ [] := by
  rw [groupWalkE_eq_fold t h []] at hw
  injection hw with hw
  cases t with
  | mk fs ps =>
      intro hnil
      have hl := lookupG_foldGroups (jkey fs) (PlanNode.mk fs ps).allNodes []
      rw [hw, hnil] at hl
      simp [allNodes_mk, lookupG] at hl

theorem mem_bumpS (h : List (String × Nat)) (k : String) :
    ∀ sc ∈ bumpS h k, sc.1 = k ∨ ∃ sc' ∈ h, sc.1 = sc'.1 := by
  induction h with
  | nil => intro sc hsc; simp [bumpS] at hsc; simp [hsc]
  | cons kv rest ih =>
      intro sc hsc
      by_cases hk : kv.1 = k
      · simp only [bumpS, hk, if_true] at hsc
        rcases List.mem_cons.mp hsc with h1 | h1
        · left; rw [h1]
        · right; exact ⟨sc, List.mem_cons_of_mem kv h1, rfl⟩
      · simp only [bumpS, hk, if_false] at hsc
        rcases List.mem_cons.mp hsc with h1 | h1
        · right; exact ⟨kv, List.mem_cons_self kv rest, by rw [h1]⟩
        · rcases ih sc h1 with h2 | ⟨sc', hm, he⟩
          · left; exact h2
          · right; exact ⟨sc', List.mem_cons_of_mem kv hm, he⟩

theorem filters_addGroupNode {fs : List (String × JVal)} {d : GroupData}
    (hd : ∀ sc ∈ d.filters, ∃ f : JVal, sc.1 = truncFilter f) :
    ∀ sc ∈ (addGroupNode fs d).filters, ∃ f : JVal, sc.1 = truncFilter f := by
  unfold addGroupNode
  rcases getField fs "Filter" with _ | filt
  · simpa using hd
  · by_cases ht : pyTruthy filt
    · simp only [ht, if_true]
      intro sc hsc
      rcases mem_bumpS _ _ sc hsc with h1 | ⟨sc', hm, he⟩
      · exact ⟨filt, h1⟩
      · rw [he]; exact hd sc' hm
    · simpa [ht] using hd

theorem filtersOK_updateGroups {gs : List (GKey × GroupData)}
    (h : ∀ kd ∈ gs, ∀ sc ∈ (kd.2 : GroupData).filters, ∃ f : JVal, sc.1 = truncFilter f)
    (k : GKey) (fs : List (String × JVal)) :
    ∀ kd ∈ updateGroups gs k (addGroupNode fs),
      ∀ sc ∈ (kd.2 : GroupData).filters, ∃ f : JVal, sc.1 = truncFilter f := by
  induction gs with
  | nil =>
      intro kd hkd
      simp only [updateGroups, List.mem_singleton] at hkd
      rw [hkd]
      exact filters_addGroupNode (by intro sc hsc; simp at hsc)
  | cons kd0 rest ih =>
      intro kd hkd
      by_cases hk : kd0.1 = k
      · simp only [updateGroups, hk, if_true] at hkd
        rcases List.mem_cons.mp hkd with h1 | h1
        · rw [h1]
          exact filters_addGroupNode (h kd0 (List.mem_cons_self kd0 rest))
        · exact h kd (List.mem_cons_of_mem kd0 h1)
      · simp only [updateGroups, hk, if_false] at hkd
        rcases List.mem_cons.mp hkd with h1 | h1
        · rw [h1]
          exact h kd0 (List.mem_cons_self kd0 rest)
        · exact ih (fun kd' hkd' => h kd' (List.mem_cons_of_mem kd0 hkd')) kd h1

theorem filtersOK_foldGroups (ns : List PlanNode) :
    ∀ gs : List (GKey × GroupData),
    (∀ kd ∈ gs, ∀ sc ∈ (kd.2 : GroupData).filters, ∃ f : JVal, sc.1 = truncFilter f) →
    ∀ kd ∈ foldGroups ns gs,
      ∀ sc ∈ (kd.2 : GroupData).filters, ∃ f : JVal, sc.1 = truncFilter f := by
  induction ns with
  | nil => intro gs h; exact h
  | cons n ns ih =>
      intro gs h
      exact ih _ (filtersOK_updateGroups h _ _)

theorem truncFilter_length (f : JVal) : (truncFilter f).length ≤ 141 := by
  unfold truncFilter
  dsimp only
  rw [String.length_append]
  have h1 : (strTake (flattenNewlines (pyStr f)) 140).length ≤ 140 := by
    show ((flattenNewlines (pyStr f)).data.take 140).length ≤ 140
    rw [List.length_take]
    exact min_le_left _ _
  have h2 :
      (if 140 < (flattenNewlines (pyStr f)).length then "…" else "").length ≤ 1 := by
    split
    · rfl
    · simp [String.length]
  omega

theorem truncFilter_long {f : JVal}
    (h : 140 < (flattenNewlines (pyStr f)).length) :
    ∃ p, truncFilter f = p ++ "…" := by
  unfold truncFilter
  dsimp only
  rw [if_pos h]
  exact ⟨_, rfl⟩

theorem sevSum_nil : sevSum [] = 0 := by simp [sevSum]

theorem sevSum_cons (e : RankEntry) (l : List RankEntry) :
    sevSum (e :: l) = e.sev + sevSum l := by simp [sevSum]

open Classical in
theorem sortRanked_perm (l : List RankEntry) : (sortRanked l).Perm l := by
  unfold sortRanked
  exact List.perm_insertionSort sevGE l

open Classical in
theorem sortRanked_sorted (l : List RankEntry) : List.Sorted sevGE (sortRanked l) := by
  unfold sortRanked
  exact List.sorted_insertionSort sevGE l

theorem sortRanked_length (l : List RankEntry) :
    (sortRanked l).length = l.length := (sortRanked_perm l).length_eq

theorem sevSum_perm {l l' : List RankEntry} (h : l.Perm l') : sevSum l = sevSum l' := by
  unfold sevSum
  exact (h.map RankEntry.sev).sum_eq

theorem sortRanked_ne_nil {l : List RankEntry} (h : l ≠ []) : sortRanked l ≠ [] := by
  intro hc
  apply h
  have := sortRanked_length l
  rw [hc] at this
  exact List.length_eq_zero.mp this.symm

theorem clamp01_of_mem {p : ℚ} (h0 : 0 ≤ p) (h1 : p ≤ 1) : clamp01 p = p := by
  unfold clamp01
  rw [min_eq_right h1, max_eq_right h0]

theorem paretoLoop_spec (thr total : ℝ) :
    ∀ (l : List RankEntry) (cum : ℝ),
      cum / total < thr →
      thr ≤ (cum + sevSum l) / total →
      ∃ m, 1 ≤ m ∧ m ≤ l.length ∧ paretoLoop thr total cum l = l.take m ∧
        thr ≤ (cum + sevSum (l.take m)) / total ∧
        ∀ j < m, (cum + sevSum (l.take j)) / total < thr := by
  intro l
  induction l with
  | nil =>
      intro cum h1 h2
      rw [sevSum_nil, add_zero] at h2
      exact absurd h2 (not_le.mpr h1)
  | cons e rest ih =>
      intro cum h1 h2
      rw [paretoLoop]
      by_cases hc : thr ≤ (cum + e.sev) / total
      · refine ⟨1, le_refl 1, by simp, ?_, ?_, ?_⟩
        · rw [if_pos hc]
          rfl
        · rw [List.take_succ_cons, List.take_zero, sevSum_cons, sevSum_nil, add_zero]
          exact hc
        · intro j hj
          have hj0 : j = 0 := by omega
          rw [hj0, List.take_zero, sevSum_nil, add_zero]
          exact h1
      · rw [if_neg hc]
        push_neg at hc
        have h2' : thr ≤ ((cum + e.sev) + sevSum rest) / total := by
          rw [sevSum_cons] at h2
          rw [← add_assoc] at h2
          exact h2
        obtain ⟨m, hm1, hm2, hm3, hm4, hm5⟩ := ih (cum + e.sev) hc h2'
        refine ⟨m + 1, by omega, by simp; omega, ?_, ?_, ?_⟩
        · rw [hm3, List.take_succ_cons]
        · rw [List.take_succ_cons, sevSum_cons, ← add_assoc]
          exact hm4
        · intro j hj
          cases j with
          | zero =>
              rw [List.take_zero, sevSum_nil, add_zero]
              exact h1
          | succ j' =>
              have := hm5 j' (by omega)
              rw [List.take_succ_cons, sevSum_cons, ← add_assoc]
              exact this

theorem log1p_nonneg {x : ℚ} (h : 0 ≤ x) : 0 ≤ Real.log (1 + (x : ℝ)) := by
  apply Real.log_nonneg
  have : (0 : ℝ) ≤ (x : ℝ) := by exact_mod_cast h
  linarith

theorem subScore_pos {x : ℚ} (h : 0 ≤ x) : 0 < subScore x := by
  unfold subScore
  apply div_pos one_pos
  have := log1p_nonneg h
  linarith

theorem subScore_le_one {x : ℚ} (h : 0 ≤ x) : subScore x ≤ 1 := by
  unfold subScore
  have hl := log1p_nonneg h
  rw [div_le_one (by linarith)]
  linarith

theorem subScore_zero : subScore 0 = 1 := by
  unfold subScore
  norm_num [Real.log_one]

theorem subScore_eq_one_iff {x : ℚ} (h : 0 ≤ x) : subScore x = 1 ↔ x = 0 := by
  constructor
  · intro he
    unfold subScore at he
    have hl := log1p_nonneg h
    have hpos : (0 : ℝ) < 1 + Real.log (1 + (x : ℝ)) := by linarith
    rw [div_eq_one_iff_eq (ne_of_gt hpos)] at he
    have hL0 : Real.log (1 + (x : ℝ)) = 0 := by linarith
    have hx : (0 : ℝ) ≤ (x : ℝ) := by exact_mod_cast h
    rcases Real.log_eq_zero.mp hL0 with h1 | h1 | h1
    · linarith
    · have : (x : ℝ) = 0 := by linarith
      exact_mod_cast this
    · linarith
  · intro he
    rw [he]
    exact subScore_zero

theorem combinedScore_mem {rd ct : ℚ} (h1 : 0 ≤ rd) (h2 : 0 ≤ ct) :
    0 < combinedScore rd ct ∧ combinedScore rd ct ≤ 1 ∧
      (combinedScore rd ct = 1 ↔ rd = 0 ∧ ct = 0) := by
  unfold combinedScore
  have w1 : ((wRead : ℚ) : ℝ) = 0.85 := by norm_num [wRead]
  have w2 : ((wCost : ℚ) : ℝ) = 0.15 := by norm_num [wCost]
  rw [w1, w2]
  have p1 := subScore_pos h1
  have p2 := subScore_pos h2
  have u1 := subScore_le_one h1
  have u2 := subScore_le_one h2
  refine ⟨by nlinarith, by nlinarith, ?_⟩
  constructor
  · intro he
    have hs1 : subScore rd = 1 := by nlinarith
    have hs2 : subScore ct = 1 := by nlinarith
    exact ⟨(subScore_eq_one_iff h1).mp hs1, (subScore_eq_one_iff h2).mp hs2⟩
  · intro ⟨e1, e2⟩
    rw [e1, e2, subScore_zero]
    norm_num

theorem evalScoreE_eq {t : PlanNode} {a : WalkAcc} {ct : ℚ}
    (hw : walkE t WalkAcc.empty = .ok a)
    (hc : pyFloatOr0 ((getField t.fields "Total Cost").getD (.num 0)) = .ok ct)
    (h1 : 0 ≤ rdOfAcc a) (h2 : 0 ≤ ct) :
    evalScoreE t = .ok (combinedScore ((rdOfAcc a : Int) : ℚ) ct) := by
  unfold evalScoreE
  rw [hw, exceptBind_ok, hc, exceptBind_ok]
  rw [if_neg]
  push_neg
  constructor
  · have : (0 : ℚ) ≤ ((rdOfAcc a : Int) : ℚ) := by exact_mod_cast h1
    linarith
  · linarith

theorem summarizeE_eq {t : PlanNode} {gs : List (GKey × GroupData)}
    (hw : groupWalkE t [] = .ok gs)
    (hdom : gs.all (fun kd => sevDomOk kd.2) = true)
    (pareto : Option ℚ) (top : Option Nat) :
    summarizeE t pareto top = .ok (selectGroups pareto top (rankedOf gs)) := by
  unfold summarizeE
  rw [hw, exceptBind_ok, if_pos hdom]

theorem selectGroups_pareto {p : ℚ} (hp : p ≠ 0) {ranked : List RankEntry}
    (hr : ranked ≠ []) (top : Option Nat) :
    selectGroups (some p) top ranked = paretoKeep p ranked := by
  have he : ranked.isEmpty = false := by
    cases ranked with
    | nil => exact absurd rfl hr
    | cons e l => rfl
  unfold selectGroups
  dsimp only
  rw [if_pos ⟨hp, he⟩]

theorem selectGroups_zero (top : Option Nat) (ranked : List RankEntry) :
    selectGroups (some 0) top ranked = ranked.take (top.getD 5) := by
  unfold selectGroups
  dsimp only
  rw [if_neg]
  intro hc
  exact hc.1 rfl

theorem paretoKeep_eq {p : ℚ} (h0 : 0 ≤ p) (h1 : p ≤ 1)
    (ranked : List RankEntry) (hS : sevSum ranked ≠ 0) :
    paretoKeep p ranked = paretoLoop ((p : ℚ) : ℝ) (sevSum ranked) 0 ranked := by
  unfold paretoKeep sevTotalOr1
  rw [clamp01_of_mem h0 h1, if_neg hS]

theorem sevSum_singleton (e : RankEntry) : sevSum [e] = e.sev := by
  rw [sevSum_cons, sevSum_nil, add_zero]

theorem rankedOf_singleton (k : GKey) (d : GroupData) :
    rankedOf [(k, d)] = [(k, d, groupSeverity d)] := by
  unfold rankedOf sortRanked
  simp [List.insertionSort, List.orderedInsert]

theorem paretoLoop_zero_singleton {e : RankEntry} (h : 0 < e.sev) :
    paretoLoop 0 e.sev 0 [e] = [e] := by
  rw [paretoLoop]
  rw [if_pos]
  rw [zero_add, div_self (ne_of_gt h)]
  norm_num

theorem groupSeverity_one_pos : 0 < groupSeverity dOne := by
  unfold dOne
  unfold groupSeverity
  push_cast
  norm_num [Real.log_one]
  exact Real.log_pos (by norm_num)

theorem groupSeverity_all_zero :
    groupSeverity
      { shared_read := 0, rows_removed := 0, temp := 0, cost := 0,
        filters := [], count := 1 } = 0 := by
  unfold groupSeverity
  push_cast
  norm_num [Real.log_one]

theorem log_nine_twentyfifths_lt : Real.log ((9 : ℝ) / 25) < -1 := by
  rw [Real.log_lt_iff_lt_exp (by norm_num)]
  rw [Real.exp_neg]
  have hp : (0 : ℝ) < Real.exp 1 := Real.exp_pos 1
  have he : Real.exp 1 < 2.7182818286 := Real.exp_one_lt_d9
  have hinv : Real.exp 1 * (Real.exp 1)⁻¹ = 1 := mul_inv_cancel₀ (ne_of_gt hp)
  nlinarith [inv_pos.mpr hp]

theorem log_nine_twentyfifths_gt : (-20 : ℝ) / 17 < Real.log ((9 : ℝ) / 25) := by
  rw [Real.lt_log_iff_exp_lt (by norm_num)]
  have hkey : (25 : ℝ) / 9 < Real.exp (20 / 17) := by
    have hmul : Real.exp ((20 : ℝ) / 17) = Real.exp 1 * Real.exp (3 / 17) := by
      rw [← Real.exp_add]
      norm_num
    have hg : (2.7182818283 : ℝ) < Real.exp 1 := Real.exp_one_gt_d9
    have hs : (3 : ℝ) / 17 + 1 ≤ Real.exp (3 / 17) := Real.add_one_le_exp _
    rw [hmul]
    nlinarith [Real.exp_pos ((3 : ℝ) / 17)]
  have h2 : Real.exp ((-20 : ℝ) / 17) = (Real.exp (20 / 17))⁻¹ := by
    rw [← Real.exp_neg]
    norm_num
  rw [h2]
  have hp : (0 : ℝ) < Real.exp ((20 : ℝ) / 17) := Real.exp_pos _
  have hinv : Real.exp ((20 : ℝ) / 17) * (Real.exp ((20 : ℝ) / 17))⁻¹ = 1 :=
    mul_inv_cancel₀ (ne_of_gt hp)
  nlinarith [inv_pos.mpr hp]

theorem combinedScore_neg : combinedScore 0 (-16 / 25) < 0 := by
  unfold combinedScore
  have w1 : ((wRead : ℚ) : ℝ) = 0.85 := by norm_num [wRead]
  have w2 : ((wCost : ℚ) : ℝ) = 0.15 := by norm_num [wCost]
  rw [w1, w2, subScore_zero]
  unfold subScore
  have hx : (1 : ℝ) + (((-16 : ℚ) / 25 : ℚ) : ℝ) = 9 / 25 := by
    push_cast
    norm_num
  rw [hx]
  have hb1 := log_nine_twentyfifths_lt
  have hb2 := log_nine_twentyfifths_gt
  have hden : 1 + Real.log ((9 : ℝ) / 25) < 0 := by linarith
  have hq : 1 / (1 + Real.log ((9 : ℝ) / 25)) < -17 / 3 := by
    rw [div_lt_iff_of_neg hden]
    nlinarith
  nlinarith

theorem pyIntOr0_falsy {v : JVal} (h : pyTruthy v = false) : pyIntOr0 v = .ok 0 := by
  unfold pyIntOr0
  rw [h]
  rfl

theorem pyFloatOr0_falsy {v : JVal} (h : pyTruthy v = false) : pyFloatOr0 v = .ok 0 := by
  unfold pyFloatOr0
  rw [h]
  rfl

theorem falsy_lookup {t : PlanNode} (hf : falsyCounters t = true) {n : PlanNode}
    (hn : n ∈ t.allNodes) {k : String} (hk : k ∈ numericKeys) {v : JVal}
    (hv : getField n.fields k = some v) : pyTruthy v = false := by
  unfold falsyCounters at hf
  rw [List.all_eq_true] at hf
  have h1 := hf n hn
  rw [List.all_eq_true] at h1
  have h2 := h1 k hk
  rw [hv] at h2
  simpa using h2

theorem srcKey_mem_numericKeys (c : Counter) : c.srcKey ∈ numericKeys := by
  cases c <;> simp [Counter.srcKey, numericKeys]

theorem aggWF_of_falsy {t : PlanNode} (hf : falsyCounters t = true) :
    aggWF t = true := by
  unfold aggWF
  rw [List.all_eq_true]
  intro n hn
  unfold nodeWFA
  rw [List.all_eq_true]
  intro c hc
  rcases hv : getField n.fields c.srcKey with _ | v
  · simp [hv]
  · have hfv := falsy_lookup hf hn (srcKey_mem_numericKeys c) hv
    simp [hv, pyIntOr0_falsy hfv, Except.isOk, Except.toBool]

theorem contribD_of_falsy {t : PlanNode} (hf : falsyCounters t = true)
    {n : PlanNode} (hn : n ∈ t.allNodes) (c : Counter) :
    contribD c n.fields = 0 := by
  unfold contribD
  rcases hv : getField n.fields c.srcKey with _ | v
  · rfl
  · have hfv := falsy_lookup hf hn (srcKey_mem_numericKeys c) hv
    simp [pyIntOr0_falsy hfv, Except.toOption]

theorem treeSum_of_falsy {t : PlanNode} (hf : falsyCounters t = true) (c : Counter) :
    treeSum c t = 0 := by
  unfold treeSum
  apply List.sum_eq_zero
  intro x hx
  rw [List.mem_map] at hx
  obtain ⟨n, hn, rfl⟩ := hx
  exact contribD_of_falsy hf hn c

theorem groupContribE_of_falsy {t : PlanNode} (hf : falsyCounters t = true)
    {n : PlanNode} (hn : n ∈ t.allNodes) :
    groupContribE n.fields = .ok (0, 0, 0, 0) := by
  have key : ∀ k ∈ numericKeys,
      pyIntOr0 ((getField n.fields k).getD (.int 0)) = .ok 0 := by
    intro k hk
    rcases hv : getField n.fields k with _ | v
    · rfl
    · exact pyIntOr0_falsy (falsy_lookup hf hn hk hv)
  have kc : pyFloatOr0 ((getField n.fields "Total Cost").getD (.num 0)) = .ok 0 := by
    rcases hv : getField n.fields "Total Cost" with _ | v
    · rfl
    · exact pyFloatOr0_falsy (falsy_lookup hf hn (by simp [numericKeys]) hv)
  unfold groupContribE
  rw [key "Shared Read Blocks" (by simp [numericKeys]), exceptBind_ok]
  rw [key "Rows Removed by Filter" (by simp [numericKeys]), exceptBind_ok]
  rw [key "Temp Read Blocks" (by simp [numericKeys]), exceptBind_ok]
  rw [key "Temp Written Blocks" (by simp [numericKeys]), exceptBind_ok]
  rw [kc, exceptBind_ok]
  norm_num

theorem rankWF_of_falsy {t : PlanNode} (hf : falsyCounters t = true) :
    rankWF t = true := by
  unfold rankWF
  rw [List.all_eq_true]
  intro n hn
  unfold nodeWFR
  rw [groupContribE_of_falsy hf hn]
  rfl

theorem keySums_of_falsy {t : PlanNode} (hf : falsyCounters t = true) (k : GKey) :
    keySums k t = (0, 0, 0, 0) := by
  have hz : ∀ n ∈ nodesWithKey k t, groupContribD n.fields = (0, 0, 0, 0) := by
    intro n hn
    have hmem : n ∈ t.allNodes := (List.mem_filter.mp hn).1
    simp [groupContribD, groupContribE_of_falsy hf hmem, Except.toOption]
  unfold keySums
  rw [foldrTuple]
  refine Prod.ext ?_ (Prod.ext ?_ (Prod.ext ?_ ?_)) <;>
    · apply List.sum_eq_zero
      intro x hx
      rw [List.map_map, List.mem_map] at hx
      obtain ⟨n, hn, rfl⟩ := hx
      simp [Function.comp, hz n hn]

/-- C2: for every plan tree whose counter fields convert (cf. C5), each
of the five tracked counter totals produced by `_walk`, read back with
the zero default its consumer uses, equals the sum of that counter over
every node of the tree with missing values contributing zero; and the
totals depend only on the multiset of visited node records, not on the
order in which nodes are visited. -/
theorem C2_aggregator_totals (t : PlanNode) (h : aggWF t = true) :
    (∀ c : Counter, walkTotal c t = treeSum c t) ∧
    ∀ t' : PlanNode, fieldsMultiset t' = fieldsMultiset t →
      aggWF t' = true ∧ ∀ c : Counter, walkTotal c t' = walkTotal c t := by
  refine ⟨fun c => walkTotal_eq_treeSum h c, ?_⟩
  intro t' ht
  have h' : aggWF t' = true := by
    rw [aggWF_iff_multiset, ht]
    exact (aggWF_iff_multiset t).1 h
  refine ⟨h', fun c => ?_⟩
  rw [walkTotal_eq_treeSum h' c, walkTotal_eq_treeSum h c,
    treeSum_multiset, treeSum_multiset, ht]

theorem fieldsMultiset_swap (fs : List (String × JVal)) (a b : PlanNode) :
    fieldsMultiset (.mk fs [b, a]) = fieldsMultiset (.mk fs [a, b]) := by
  unfold fieldsMultiset
  rw [Multiset.coe_eq_coe]
  rw [allNodes_mk, allNodes_mk]
  rw [allNodesL_cons, allNodesL_cons, allNodesL_cons, allNodesL_cons,
    allNodesL_nil, List.append_nil, List.append_nil]
  simp only [List.map_cons, List.map_append, fields_mk]
  exact List.Perm.cons _ List.perm_append_comm

/-- Witness for C2: the worked two-scan example and its sibling-swapped
copy have the same node multiset and the same shared-read total, which
equals the tree sum 80. -/
theorem C2_aggregator_totals_witness :
    aggWF exTree = true ∧
    fieldsMultiset exTreeSwapped = fieldsMultiset exTree ∧
    walkTotal Counter.sharedRead exTree = treeSum Counter.sharedRead exTree ∧
    walkTotal Counter.sharedRead exTreeSwapped = walkTotal Counter.sharedRead exTree := by
  have h : aggWF exTree = true := by with_unfolding_all rfl
  have hm : fieldsMultiset exTreeSwapped = fieldsMultiset exTree :=
    fieldsMultiset_swap _ exSeq1 exSeq2
  exact ⟨h, hm, (C2_aggregator_totals exTree h).1 .sharedRead,
    ((C2_aggregator_totals exTree h).2 exTreeSwapped hm).2 .sharedRead⟩

/-- C10: for every (convertible) plan tree, a tracked counter whose
source key is absent from every node has no entry at all in the
accumulator — `none`, not an entry at zero — and the zero-default read
used by the consumer then yields 0. -/
theorem C10_absent_key (t : PlanNode) (c : Counter) (a : WalkAcc)
    (h : aggWF t = true) (hw : walkE t WalkAcc.empty = .ok a) :
    (a.get c = none ↔ presentT c t = false) ∧
    (presentT c t = false → walkTotal c t = 0) := by
  refine ⟨walk_get_none_iff h hw c, fun hp => ?_⟩
  unfold walkTotal
  rw [hw]
  dsimp only
  rw [(walk_get_none_iff h hw c).mpr hp]
  rfl

/-- Witness for C10 at a tree with no counter fields at all. -/
theorem C10_absent_key_witness :
    aggWF tZero = true ∧
    walkE tZero WalkAcc.empty = .ok { scan_types := [(.str "Result", 1)] } ∧
    (({ scan_types := [(.str "Result", 1)] } : WalkAcc).get .sharedRead = none ↔
      presentT .sharedRead tZero = false) ∧
    walkTotal .sharedRead tZero = 0 := by
  have h1 : aggWF tZero = true := by with_unfolding_all rfl
  have h2 : walkE tZero WalkAcc.empty = .ok { scan_types := [(.str "Result", 1)] } := by
    with_unfolding_all rfl
  have h3 := C10_absent_key tZero .sharedRead _ h1 h2
  exact ⟨h1, h2, h3.1, h3.2 (by with_unfolding_all rfl)⟩

/-- C4: all nodes sharing a (Node Type, relation-or-alias) key
contribute to a single group whose counters are the sums over those
nodes; in the worked example with two sibling sequential scans of
"orders" (shared reads 50 and 30, costs 1000 and 2000) there is exactly
one ("Seq Scan","orders") group, with shared_read 80 and cost 3000. -/
theorem C4_grouping_collapses :
    (∀ (t : PlanNode) (gs : List (GKey × GroupData)) (k : GKey) (d : GroupData),
      rankWF t = true → groupWalkE t [] = .ok gs → lookupG k gs = some d →
      d.shared_read = (keySums k t).1 ∧ d.rows_removed = (keySums k t).2.1 ∧
      d.temp = (keySums k t).2.2.1 ∧ d.cost = (keySums k t).2.2.2 ∧
      d.count = keyCount k t) ∧
    groupWalkE exTree [] = .ok gsEx ∧
    lookupG exKey gsEx =
      some { shared_read := 80, rows_removed := 0, temp := 0, cost := 3000,
             filters := [], count := 2 } ∧
    (gsEx.map Prod.fst).count exKey = 1 := by
  refine ⟨fun t gs k d h hw hd => group_lookup_sums h hw k d hd, ?_, ?_, ?_⟩
  · with_unfolding_all rfl
  · with_unfolding_all rfl
  · with_unfolding_all rfl

/-- Witness for C4 at the worked example. -/
theorem C4_grouping_collapses_witness :
    rankWF exTree = true ∧ groupWalkE exTree [] = .ok gsEx ∧
    lookupG exKey gsEx =
      some { shared_read := 80, rows_removed := 0, temp := 0, cost := 3000,
             filters := [], count := 2 } ∧
    ({ shared_read := 80, rows_removed := 0, temp := 0, cost := 3000,
       filters := [], count := 2 } : GroupData).shared_read =
      (keySums exKey exTree).1 ∧
    ({ shared_read := 80, rows_removed := 0, temp := 0, cost := 3000,
       filters := [], count := 2 } : GroupData).count = keyCount exKey exTree := by
  have h1 : rankWF exTree = true := by with_unfolding_all rfl
  have h2 : groupWalkE exTree [] = .ok gsEx := by with_unfolding_all rfl
  have h3 : lookupG exKey gsEx =
      some { shared_read := 80, rows_removed := 0, temp := 0, cost := 3000,
             filters := [], count := 2 } := by with_unfolding_all rfl
  have h4 := C4_grouping_collapses.1 exTree gsEx exKey _ h1 h2 h3
  exact ⟨h1, h2, h3, h4.1, h4.2.2.2.2⟩

/-- C5 counterexample: a truthy non-numeric string ("abc") in a counter
field makes both the aggregator walk and the grouping walk fail with an
uncaught conversion error, so a malformed value is not always treated
as zero. -/
theorem C5_counterexample :
    (walkE tBad WalkAcc.empty).isOk = false ∧
    (groupWalkE tBad []).isOk = false := by
  constructor <;> with_unfolding_all rfl

/-- C5 (amended): a numeric field that is missing or falsy (null,
zero, empty string, false) contributes zero to the aggregator totals
and to every group's counters, and never makes either walk fail; a
truthy non-convertible value, by contrast, raises (see the
counterexample). -/
theorem C5_falsy_zero (t : PlanNode) (hf : falsyCounters t = true) :
    aggWF t = true ∧ rankWF t = true ∧
    (walkE t WalkAcc.empty).isOk = true ∧
    (groupWalkE t []).isOk = true ∧
    (∀ c : Counter, walkTotal c t = 0) ∧
    (∀ (gs : List (GKey × GroupData)) (k : GKey) (d : GroupData),
      groupWalkE t [] = .ok gs → lookupG k gs = some d →
      d.shared_read = 0 ∧ d.rows_removed = 0 ∧ d.temp = 0 ∧ d.cost = 0) := by
  have ha := aggWF_of_falsy hf
  have hr := rankWF_of_falsy hf
  refine ⟨ha, hr, ?_, ?_, ?_, ?_⟩
  · rw [walkE_eq_fold t ha]
    rfl
  · rw [groupWalkE_eq_fold t hr []]
    rfl
  · intro c
    rw [walkTotal_eq_treeSum ha c]
    exact treeSum_of_falsy hf c
  · intro gs k d hw hd
    obtain ⟨s1, s2, s3, s4, _⟩ := group_lookup_sums hr hw k d hd
    rw [s1, s2, s3, s4, keySums_of_falsy hf k]
    exact ⟨rfl, rfl, rfl, rfl⟩

/-- Witness for C5 at a node whose six numeric fields are all null. -/
theorem C5_falsy_zero_witness :
    falsyCounters tNull = true ∧
    (walkE tNull WalkAcc.empty).isOk = true ∧
    (groupWalkE tNull []).isOk = true ∧
    walkTotal Counter.sharedRead tNull = 0 := by
  have hf : falsyCounters tNull = true := by with_unfolding_all rfl
  have h := C5_falsy_zero tNull hf
  exact ⟨hf, h.2.2.1, h.2.2.2.1, h.2.2.2.2.1 .sharedRead⟩

/-- C9: every filter text tallied into a group's filter histogram is
the newline-flattened, 140-character truncation of some node's filter
value, hence at most 141 characters long; and whenever the flattened
original exceeds 140 characters the stored string ends with the
ellipsis marker. -/
theorem C9_filter_truncation :
    (∀ (t : PlanNode) (gs : List (GKey × GroupData)),
      rankWF t = true → groupWalkE t [] = .ok gs →
      ∀ kd ∈ gs, ∀ sc ∈ (kd.2 : GroupData).filters,
        sc.1.length ≤ 141 ∧ ∃ f : JVal, sc.1 = truncFilter f) ∧
    (∀ f : JVal, 140 < (flattenNewlines (pyStr f)).length →
      ∃ p, truncFilter f = p ++ "…") := by
  refine ⟨?_, fun f hf => truncFilter_long hf⟩
  intro t gs h hw kd hkd sc hsc
  rw [groupWalkE_eq_fold t h []] at hw
  injection hw with hw
  rw [← hw] at hkd
  have hOK := filtersOK_foldGroups t.allNodes []
    (by intro kd' hkd'; simp at hkd') kd hkd sc hsc
  obtain ⟨f, hfe⟩ := hOK
  refine ⟨?_, f, hfe⟩
  rw [hfe]
  exact truncFilter_length f

/-- Witness for C9: the tree tTwo tallies the filter "(x > 1)", which
is within the bound; and a 150-character filter ends in the marker. -/
theorem C9_filter_truncation_witness :
    rankWF tTwo = true ∧ groupWalkE tTwo [] = .ok gsTwo ∧
    (("(x > 1)", 1) : String × Nat).1.length ≤ 141 ∧
    (∃ f : JVal, (("(x > 1)", 1) : String × Nat).1 = truncFilter f) ∧
    140 < (flattenNewlines (pyStr (.str (String.mk (List.replicate 150 'x'))))).length ∧
    (∃ p, truncFilter (.str (String.mk (List.replicate 150 'x'))) = p ++ "…") := by
  have h1 : rankWF tTwo = true := by with_unfolding_all rfl
  have h2 : groupWalkE tTwo [] = .ok gsTwo := by with_unfolding_all rfl
  have hkd : ((.str "Seq Scan", .str "t"),
      ({ shared_read := 0, rows_removed := 3, temp := 0, cost := 0,
         filters := [("(x > 1)", 1)], count := 1 } : GroupData)) ∈ gsTwo := by
    with_unfolding_all decide
  have hsc : (("(x > 1)", 1) : String × Nat) ∈
      ({ shared_read := 0, rows_removed := 3, temp := 0, cost := 0,
         filters := [("(x > 1)", 1)], count := 1 } : GroupData).filters := by
    with_unfolding_all decide
  have hlen : 140 <
      (flattenNewlines (pyStr (.str (String.mk (List.replicate 150 'x'))))).length := by
    show 140 < ((List.replicate 150 'x').map (fun c => if c = '\n' then ' ' else c)).length
    rw [List.length_map, List.length_replicate]
    norm_num
  have hmain := C9_filter_truncation.1 tTwo gsTwo h1 h2 _ hkd _ hsc
  exact ⟨h1, h2, hmain.1, hmain.2, hlen, C9_filter_truncation.2 _ hlen⟩

/-- C1 (amended): when the supplied pareto fraction lies in (0, 1]
(a zero fraction is falsy and disables the branch), every group's
severity arguments are inside log1p's domain (otherwise the source
raises before selecting anything), and the total severity of the
ranked groups is positive, the pareto selection returns the shortest
nonempty prefix of the descending-severity order whose cumulative
severity share reaches the fraction: the returned share is at least p
and every shorter prefix falls strictly below p.  When total severity
is zero the source substitutes denominator 1 and returns all groups
with share 0 (see the counterexample). -/
theorem C1_pareto_shortest (t : PlanNode) (gs : List (GKey × GroupData))
    (p : ℚ) (top : Option Nat) (hw : groupWalkE t [] = .ok gs)
    (hdom : gs.all (fun kd => sevDomOk kd.2) = true)
    (hp0 : 0 < p) (hp1 : p ≤ 1) (hS : 0 < sevSum (rankedOf gs)) :
    ∃ m, 1 ≤ m ∧ m ≤ (rankedOf gs).length ∧
      summarizeE t (some p) top = .ok ((rankedOf gs).take m) ∧
      (p : ℝ) ≤ sevSum ((rankedOf gs).take m) / sevSum (rankedOf gs) ∧
      ∀ j < m, sevSum ((rankedOf gs).take j) / sevSum (rankedOf gs) < (p : ℝ) := by
  have hne : rankedOf gs ≠ [] := by
    intro hc
    rw [hc, sevSum_nil] at hS
    exact lt_irrefl 0 hS
  rw [summarizeE_eq hw hdom]
  rw [selectGroups_pareto (ne_of_gt hp0) hne top]
  rw [paretoKeep_eq (le_of_lt hp0) hp1 _ (ne_of_gt hS)]
  have hcast0 : (0 : ℝ) / sevSum (rankedOf gs) < ((p : ℚ) : ℝ) := by
    rw [zero_div]
    exact_mod_cast hp0
  have hcast1 : ((p : ℚ) : ℝ) ≤ (0 + sevSum (rankedOf gs)) / sevSum (rankedOf gs) := by
    rw [zero_add, div_self (ne_of_gt hS)]
    exact_mod_cast hp1
  obtain ⟨m, h1, h2, h3, h4, h5⟩ :=
    paretoLoop_spec ((p : ℚ) : ℝ) (sevSum (rankedOf gs)) (rankedOf gs) 0 hcast0 hcast1
  refine ⟨m, h1, h2, by rw [h3], ?_, ?_⟩
  · rw [zero_add] at h4
    exact h4
  · intro j hj
    have h6 := h5 j hj
    rw [zero_add] at h6
    exact h6

/-- C1 counterexample: on a plan with a single group of severity zero,
the pareto branch at fraction 0.9 returns the whole (one-element)
ranked list, yet its cumulative share under the source's guarded
denominator is 0 < 0.9 — no prefix reaches the requested share. -/
theorem C1_pareto_shortest_counterexample :
    groupWalkE tZero [] = .ok gsZero ∧
    summarizeE tZero (some (9/10)) none = .ok (rankedOf gsZero) ∧
    sevSum (rankedOf gsZero) = 0 ∧
    sevSum (rankedOf gsZero) / sevTotalOr1 (rankedOf gsZero) < ((9 : ℚ)/10 : ℝ) := by
  have hw : groupWalkE tZero [] = .ok gsZero := by with_unfolding_all rfl
  have hd : gsZero.all (fun kd => sevDomOk kd.2) = true := by with_unfolding_all rfl
  have hr : rankedOf gsZero =
      [((.str "Result", .str "?"),
        { shared_read := 0, rows_removed := 0, temp := 0, cost := 0,
          filters := [], count := 1 },
        groupSeverity
          { shared_read := 0, rows_removed := 0, temp := 0, cost := 0,
            filters := [], count := 1 })] := rankedOf_singleton _ _
  have hz : sevSum (rankedOf gsZero) = 0 := by
    rw [hr, sevSum_singleton]
    exact groupSeverity_all_zero
  have htot : sevTotalOr1 (rankedOf gsZero) = 1 := by
    unfold sevTotalOr1
    rw [if_pos hz]
  refine ⟨hw, ?_, hz, ?_⟩
  · rw [summarizeE_eq hw hd]
    rw [selectGroups_pareto (by norm_num) (by rw [hr]; simp) none]
    unfold paretoKeep
    rw [htot, hr]
    rw [paretoLoop]
    rw [if_neg]
    · rw [paretoLoop]
    · rw [clamp01_of_mem (by norm_num) (by norm_num)]
      have hsev : RankEntry.sev
          ((.str "Result", .str "?"),
            { shared_read := 0, rows_removed := 0, temp := 0, cost := 0,
              filters := [], count := 1 },
            groupSeverity
              { shared_read := 0, rows_removed := 0, temp := 0, cost := 0,
                filters := [], count := 1 }) = 0 := groupSeverity_all_zero
      rw [hsev]
      norm_num
  · rw [hz, htot]
    norm_num

/-- Witness for C1 at a one-scan plan with positive severity and
fraction 0.9. -/
theorem C1_pareto_shortest_witness :
    groupWalkE tOne [] = .ok gsOne ∧
    gsOne.all (fun kd => sevDomOk kd.2) = true ∧
    0 < (9/10 : ℚ) ∧ (9/10 : ℚ) ≤ 1 ∧
    0 < sevSum (rankedOf gsOne) ∧
    (∃ m, 1 ≤ m ∧ m ≤ (rankedOf gsOne).length ∧
      summarizeE tOne (some (9/10)) none = .ok ((rankedOf gsOne).take m) ∧
      ((9/10 : ℚ) : ℝ) ≤ sevSum ((rankedOf gsOne).take m) / sevSum (rankedOf gsOne) ∧
      ∀ j < m,
        sevSum ((rankedOf gsOne).take j) / sevSum (rankedOf gsOne) < ((9/10 : ℚ) : ℝ)) := by
  have hw : groupWalkE tOne [] = .ok gsOne := by with_unfolding_all rfl
  have hd : gsOne.all (fun kd => sevDomOk kd.2) = true := by with_unfolding_all rfl
  have hS : 0 < sevSum (rankedOf gsOne) := by
    have hr : rankedOf gsOne = [(kOne, dOne, groupSeverity dOne)] :=
      rankedOf_singleton kOne dOne
    rw [hr, sevSum_singleton]
    exact groupSeverity_one_pos
  exact ⟨hw, hd, by norm_num, by norm_num, hS,
    C1_pareto_shortest tOne gsOne (9/10) none hw hd (by norm_num) (by norm_num) hS⟩

/-- C3 (amended): for every (convertible) plan tree whose aggregated
shared-read total and root total-cost are nonnegative — the domain the
score formula is meant for — the combined score under the default
weights lies in (0, 1] and equals 1 exactly when both inputs are zero.
A negative root cost in (-1, 0) can push the score outside (0, 1]
(see the counterexample). -/
theorem C3_score_range (t : PlanNode) (a : WalkAcc) (ct : ℚ)
    (hw : walkE t WalkAcc.empty = .ok a)
    (hc : pyFloatOr0 ((getField t.fields "Total Cost").getD (.num 0)) = .ok ct)
    (h1 : 0 ≤ rdOfAcc a) (h2 : 0 ≤ ct) :
    evalScoreE t = .ok (combinedScore ((rdOfAcc a : Int) : ℚ) ct) ∧
    0 < combinedScore ((rdOfAcc a : Int) : ℚ) ct ∧
    combinedScore ((rdOfAcc a : Int) : ℚ) ct ≤ 1 ∧
    (combinedScore ((rdOfAcc a : Int) : ℚ) ct = 1 ↔ rdOfAcc a = 0 ∧ ct = 0) := by
  have h1q : (0 : ℚ) ≤ ((rdOfAcc a : Int) : ℚ) := by exact_mod_cast h1
  obtain ⟨m1, m2, m3⟩ := combinedScore_mem h1q h2
  refine ⟨evalScoreE_eq hw hc h1 h2, m1, m2, ?_⟩
  rw [m3]
  constructor
  · rintro ⟨e1, e2⟩
    exact ⟨by exact_mod_cast e1, e2⟩
  · rintro ⟨e1, e2⟩
    exact ⟨by exact_mod_cast e1, e2⟩

/-- C3 counterexample: a plan whose root Total Cost is the float -0.64
(accepted without any error by the score computation) yields a
combined score strictly below 0, outside (0, 1]. -/
theorem C3_score_range_counterexample :
    evalScoreE tNeg = .ok (combinedScore 0 (-16/25)) ∧
    combinedScore 0 (-16/25) < 0 := by
  refine ⟨?_, combinedScore_neg⟩
  have hw : walkE tNeg WalkAcc.empty = .ok WalkAcc.empty := by with_unfolding_all rfl
  have hc : pyFloatOr0 ((getField tNeg.fields "Total Cost").getD (.num 0)) =
      .ok (-16/25) := by with_unfolding_all rfl
  unfold evalScoreE
  rw [hw, exceptBind_ok, hc, exceptBind_ok]
  rw [if_neg]
  · have : ((rdOfAcc WalkAcc.empty : Int) : ℚ) = 0 := by
      simp [rdOfAcc, WalkAcc.empty]
    rw [this]
  · push_neg
    constructor
    · have : ((rdOfAcc WalkAcc.empty : Int) : ℚ) = 0 := by
        simp [rdOfAcc, WalkAcc.empty]
      rw [this]
      norm_num
    · norm_num

/-- Witness for C3 at the worked example tree (shared reads 80, root
cost 3500). -/
theorem C3_score_range_witness :
    walkE exTree WalkAcc.empty = .ok aEx ∧
    pyFloatOr0 ((getField exTree.fields "Total Cost").getD (.num 0)) = .ok 3500 ∧
    0 ≤ rdOfAcc aEx ∧ (0 : ℚ) ≤ 3500 ∧
    (evalScoreE exTree = .ok (combinedScore ((rdOfAcc aEx : Int) : ℚ) 3500) ∧
     0 < combinedScore ((rdOfAcc aEx : Int) : ℚ) 3500 ∧
     combinedScore ((rdOfAcc aEx : Int) : ℚ) 3500 ≤ 1 ∧
     (combinedScore ((rdOfAcc aEx : Int) : ℚ) 3500 = 1 ↔
       rdOfAcc aEx = 0 ∧ (3500 : ℚ) = 0)) := by
  have hw : walkE exTree WalkAcc.empty = .ok aEx := by with_unfolding_all rfl
  have hc : pyFloatOr0 ((getField exTree.fields "Total Cost").getD (.num 0)) =
      .ok 3500 := by with_unfolding_all rfl
  have h1 : 0 ≤ rdOfAcc aEx := by with_unfolding_all decide
  have h2 : (0 : ℚ) ≤ 3500 := by norm_num
  exact ⟨hw, hc, h1, h2, C3_score_range exTree aEx 3500 hw hc h1 h2⟩

theorem rankedOf_ne_nil {gs : List (GKey × GroupData)} (h : gs ≠ []) :
    rankedOf gs ≠ [] := by
  unfold rankedOf
  apply sortRanked_ne_nil
  intro hc
  rw [List.map_eq_nil_iff] at hc
  exact h hc

theorem paretoKeep_clamp_zero {p : ℚ} (hc : clamp01 p = 0) :
    paretoKeep p (rankedOf gsOne) = rankedOf gsOne := by
  have hr : rankedOf gsOne = [(kOne, dOne, groupSeverity dOne)] :=
    rankedOf_singleton kOne dOne
  unfold paretoKeep
  rw [hc, hr]
  have hS : sevSum [(kOne, dOne, groupSeverity dOne)] = groupSeverity dOne :=
    sevSum_singleton _
  unfold sevTotalOr1
  rw [hS, if_neg (ne_of_gt groupSeverity_one_pos)]
  rw [Rat.cast_zero]
  exact paretoLoop_zero_singleton groupSeverity_one_pos

/-- C6 (amended): when both a pareto fraction in (0, 1] and a top-K
count are supplied, and every group's severity arguments are inside
log1p's domain (otherwise the source raises before any selection), the
pareto policy is applied and the top-K count is ignored.  A zero
fraction — although inside [0,1] — is falsy in the source and routes
to the top-K branch instead (see the counterexample), which is why the
fraction must be nonzero here. -/
theorem C6_pareto_precedence (t : PlanNode) (gs : List (GKey × GroupData))
    (p : ℚ) (k k' : Nat) (h : rankWF t = true) (hw : groupWalkE t [] = .ok gs)
    (hdom : gs.all (fun kd => sevDomOk kd.2) = true)
    (hp0 : 0 < p) (hp1 : p ≤ 1) :
    summarizeE t (some p) (some k) = .ok (paretoKeep p (rankedOf gs)) ∧
    summarizeE t (some p) (some k) = summarizeE t (some p) (some k') := by
  have hne : rankedOf gs ≠ [] := rankedOf_ne_nil (groupWalk_ne_nil h hw)
  constructor
  · rw [summarizeE_eq hw hdom, selectGroups_pareto (ne_of_gt hp0) hne (some k)]
  · rw [summarizeE_eq hw hdom, summarizeE_eq hw hdom,
      selectGroups_pareto (ne_of_gt hp0) hne (some k),
      selectGroups_pareto (ne_of_gt hp0) hne (some k')]

/-- C6 counterexample: with pareto fraction 0 (which is inside [0,1])
and top-K count 0 both supplied, the source returns the empty top-K
slice, not the (nonempty) pareto selection — pareto does not take
precedence at fraction 0. -/
theorem C6_pareto_precedence_counterexample :
    summarizeE tOne (some 0) (some 0) = .ok [] ∧
    paretoKeep 0 (rankedOf gsOne) ≠ [] := by
  have hw : groupWalkE tOne [] = .ok gsOne := by with_unfolding_all rfl
  have hd : gsOne.all (fun kd => sevDomOk kd.2) = true := by with_unfolding_all rfl
  constructor
  · rw [summarizeE_eq hw hd, selectGroups_zero]
    rfl
  · rw [paretoKeep_clamp_zero (by norm_num [clamp01])]
    have hr : rankedOf gsOne = [(kOne, dOne, groupSeverity dOne)] :=
      rankedOf_singleton kOne dOne
    rw [hr]
    simp

/-- Witness for C6 at the one-scan plan with fraction 1/2 and two
different top-K counts. -/
theorem C6_pareto_precedence_witness :
    rankWF tOne = true ∧ groupWalkE tOne [] = .ok gsOne ∧
    gsOne.all (fun kd => sevDomOk kd.2) = true ∧
    (summarizeE tOne (some (1/2)) (some 0) = .ok (paretoKeep (1/2) (rankedOf gsOne)) ∧
     summarizeE tOne (some (1/2)) (some 0) = summarizeE tOne (some (1/2)) (some 7)) := by
  have h : rankWF tOne = true := by with_unfolding_all rfl
  have hw : groupWalkE tOne [] = .ok gsOne := by with_unfolding_all rfl
  have hd : gsOne.all (fun kd => sevDomOk kd.2) = true := by with_unfolding_all rfl
  exact ⟨h, hw, hd,
    C6_pareto_precedence tOne gsOne (1/2) 0 7 h hw hd (by norm_num) (by norm_num)⟩

/-- C7 (amended): an out-of-range pareto fraction is never itself
rejected: on trees whose groups' severity arguments are inside log1p's
domain (the only trees on which any selection succeeds) the call
returns without error for every fraction.  For p > 1 the selection is
exactly that of supplying 1 (threshold clamped down).  For p < 0 the
pareto branch still runs, with the threshold clamped up to 0 — which
is not the same as supplying the endpoint 0 itself, since a zero
fraction is falsy and disables the pareto branch (see the
counterexample). -/
theorem C7_clamped (t : PlanNode) (gs : List (GKey × GroupData)) (p : ℚ)
    (k : Option Nat) (h : rankWF t = true) (hw : groupWalkE t [] = .ok gs)
    (hdom : gs.all (fun kd => sevDomOk kd.2) = true) :
    (summarizeE t (some p) k).isOk = true ∧
    (1 < p → summarizeE t (some p) k = summarizeE t (some 1) k) ∧
    (p < 0 → summarizeE t (some p) k =
      .ok (paretoLoop 0 (sevTotalOr1 (rankedOf gs)) 0 (rankedOf gs))) := by
  have hne : rankedOf gs ≠ [] := rankedOf_ne_nil (groupWalk_ne_nil h hw)
  refine ⟨?_, ?_, ?_⟩
  · rw [summarizeE_eq hw hdom]
    rfl
  · intro hp
    rw [summarizeE_eq hw hdom, summarizeE_eq hw hdom]
    rw [selectGroups_pareto
      (by intro h0; rw [h0] at hp; exact absurd hp (by norm_num)) hne k]
    rw [selectGroups_pareto (by norm_num) hne k]
    unfold paretoKeep
    have c1 : clamp01 p = 1 := by
      unfold clamp01
      rw [min_eq_left (le_of_lt hp)]
      norm_num
    have c2 : clamp01 1 = 1 := by norm_num [clamp01]
    rw [c1, c2]
  · intro hp
    rw [summarizeE_eq hw hdom]
    rw [selectGroups_pareto (ne_of_lt hp) hne k]
    unfold paretoKeep
    have c1 : clamp01 p = 0 := by
      unfold clamp01
      rw [min_eq_right (by linarith : p ≤ 1)]
      exact max_eq_left (le_of_lt hp)
    rw [c1, Rat.cast_zero]

/-- C7 counterexample: with fraction -1 the source returns the pareto
selection at clamped threshold 0 (the one nonempty top group), while
actually supplying the clamped endpoint 0 returns the empty top-K
slice — so the behaviour is not that of the clamped fraction. -/
theorem C7_clamped_counterexample :
    summarizeE tOne (some (-1)) (some 0) = .ok (rankedOf gsOne) ∧
    summarizeE tOne (some 0) (some 0) = .ok [] ∧
    rankedOf gsOne ≠ [] := by
  have hw : groupWalkE tOne [] = .ok gsOne := by with_unfolding_all rfl
  have hd : gsOne.all (fun kd => sevDomOk kd.2) = true := by with_unfolding_all rfl
  have hr : rankedOf gsOne = [(kOne, dOne, groupSeverity dOne)] :=
    rankedOf_singleton kOne dOne
  have hne : rankedOf gsOne ≠ [] := by
    rw [hr]
    simp
  refine ⟨?_, ?_, hne⟩
  · rw [summarizeE_eq hw hd, selectGroups_pareto (by norm_num) hne (some 0)]
    rw [paretoKeep_clamp_zero (by norm_num [clamp01])]
  · rw [summarizeE_eq hw hd, selectGroups_zero]
    rfl

/-- Witness for C7 at the one-scan plan with the fractions 2 and -1. -/
theorem C7_clamped_witness :
    rankWF tOne = true ∧ groupWalkE tOne [] = .ok gsOne ∧
    gsOne.all (fun kd => sevDomOk kd.2) = true ∧
    (summarizeE tOne (some 2) (some 3)).isOk = true ∧
    summarizeE tOne (some 2) (some 3) = summarizeE tOne (some 1) (some 3) ∧
    summarizeE tOne (some (-1)) (some 3) =
      .ok (paretoLoop 0 (sevTotalOr1 (rankedOf gsOne)) 0 (rankedOf gsOne)) := by
  have h : rankWF tOne = true := by with_unfolding_all rfl
  have hw : groupWalkE tOne [] = .ok gsOne := by with_unfolding_all rfl
  have hd : gsOne.all (fun kd => sevDomOk kd.2) = true := by with_unfolding_all rfl
  have h2 := C7_clamped tOne gsOne 2 (some 3) h hw hd
  have hm := C7_clamped tOne gsOne (-1) (some 3) h hw hd
  exact ⟨h, hw, hd, h2.1, h2.2.1 (by norm_num), hm.2.2 (by norm_num)⟩

/-- C8 (amended): with no pareto fraction, on trees whose groups'
severity arguments are all inside log1p's domain — the source computes
every group's severity before slicing, and raises otherwise (see the
counterexample) — top-K selection with K = 0 returns the empty result,
and any K at least the number of groups returns the whole ranked
list, sorted by descending severity, with no grouping key appearing
twice. -/
theorem C8_topk (t : PlanNode) (gs : List (GKey × GroupData)) (k : Nat)
    (h : rankWF t = true) (hw : groupWalkE t [] = .ok gs)
    (hdom : gs.all (fun kd => sevDomOk kd.2) = true) :
    summarizeE t none (some 0) = .ok [] ∧
    (gs.length ≤ k →
      summarizeE t none (some k) = .ok (rankedOf gs) ∧
      List.Sorted sevGE (rankedOf gs) ∧
      ((rankedOf gs).map (fun e : RankEntry => e.1)).Nodup) := by
  have hkeys : (gs.map Prod.fst).Nodup := by
    have hw2 := hw
    rw [groupWalkE_eq_fold t h []] at hw2
    injection hw2 with hw2
    rw [← hw2]
    exact nodupKeys_foldGroups t.allNodes [] (by simp)
  refine ⟨?_, fun hk => ⟨?_, ?_, ?_⟩⟩
  · rw [summarizeE_eq hw hdom]
    rfl
  · rw [summarizeE_eq hw hdom]
    have hlen : (rankedOf gs).length ≤ k := by
      unfold rankedOf
      rw [sortRanked_length, List.length_map]
      exact hk
    show Except.ok ((rankedOf gs).take k) = Except.ok (rankedOf gs)
    rw [List.take_of_length_le hlen]
  · exact sortRanked_sorted _
  · have h1 : (rankedOf gs).Perm
        (gs.map (fun kd => (kd.1, kd.2, groupSeverity kd.2))) := sortRanked_perm _
    have h2 := h1.map (fun e : RankEntry => e.1)
    rw [List.map_map] at h2
    refine h2.nodup_iff.mpr ?_
    have he : (gs.map ((fun e : RankEntry => e.1) ∘
        (fun kd : GKey × GroupData => (kd.1, kd.2, groupSeverity kd.2)))) =
        gs.map Prod.fst := rfl
    rw [he]
    exact hkeys

/-- C8 counterexample: on a plan with a single group whose summed
Shared Read Blocks is -5, top-K selection with K = 0 does not return
an empty list — the source raises ValueError while computing the
group's severity (before the slice), modelled here by the error
result. -/
theorem C8_topk_counterexample :
    summarizeE tNegSR none (some 0) = .error "math domain error" := by
  with_unfolding_all rfl

/-- Witness for C8 at the worked example (two groups, K = 0 and 5). -/
theorem C8_topk_witness :
    rankWF exTree = true ∧ groupWalkE exTree [] = .ok gsEx ∧
    gsEx.all (fun kd => sevDomOk kd.2) = true ∧ gsEx.length ≤ 5 ∧
    (summarizeE exTree none (some 0) = .ok [] ∧
     summarizeE exTree none (some 5) = .ok (rankedOf gsEx) ∧
     List.Sorted sevGE (rankedOf gsEx) ∧
     ((rankedOf gsEx).map (fun e : RankEntry => e.1)).Nodup) := by
  have h : rankWF exTree = true := by with_unfolding_all rfl
  have hw : groupWalkE exTree [] = .ok gsEx := by with_unfolding_all rfl
  have hd : gsEx.all (fun kd => sevDomOk kd.2) = true := by with_unfolding_all rfl
  have hk : gsEx.length ≤ 5 := by norm_num [gsEx]
  have hmain := C8_topk exTree gsEx 5 h hw hd
  exact ⟨h, hw, hd, hk, hmain.1, (hmain.2 hk).1, (hmain.2 hk).2.1, (hmain.2 hk).2.2⟩
